import Mathlib

/-!
Verification of the patch-application engine of `scripts/patch-drizzle-kit.ts`.

The engine is a pure read–modify–write cycle over one text buffer, so it is
embedded shallowly: text is `List Char`, each JavaScript regular expression of
the fixed rule table is translated into an executable anchored matcher
(leftmost scan, greedy character classes, explicit backtracking where the
original pattern needs it), and the orchestration function `patchDrizzleKit`
is translated clause by clause.  File system reads and writes are represented
by the function from the pre-run artifact content to the run outcome: a
`committed` outcome carries exactly the buffer that the script writes back,
and every other outcome performs no write.
-/

set_option maxRecDepth 10000
set_option maxHeartbeats 2000000

namespace DrizzlePatch

/-- Artifact text, modelled as a list of characters. -/
abbrev Str := List Char

/-- Bool-valued: `pat` is a prefix of `s`. -/
def isPref : Str → Str → Bool
  | [], _ => true
  | _ :: _, [] => false
  | a :: as, b :: bs => a == b && isPref as bs

/-- Consume the literal `lit` from the front of `s`, returning the rest. -/
def dropLit (lit s : Str) : Option Str :=
  if isPref lit s then some (s.drop lit.length) else none

/-- Bool-valued substring test, the model of JavaScript `String.includes`. -/
def containsB (pat : Str) : Str → Bool
  | [] => isPref pat []
  | c :: cs => isPref pat (c :: cs) || containsB pat cs

/-- Number of (possibly overlapping) occurrence positions of `pat` in `s`. -/
def countOcc (pat : Str) : Str → Nat
  | [] => if isPref pat [] then 1 else 0
  | c :: cs => (if isPref pat (c :: cs) then 1 else 0) + countOcc pat cs

/-- Index of the first newline, the model of `content.indexOf("\n")`
(`none` models the `-1` result). -/
def firstNl : Str → Option Nat
  | [] => none
  | c :: cs =>
    if c == '\n' then some 0
    else match firstNl cs with
      | some k => some (k + 1)
      | none => none

/-- The character class `\s` of the JavaScript regular-expression engine. -/
def isWs (c : Char) : Bool :=
  c == ' ' || c == '\t' || c == '\n' || c == '\r' || c == '\x0b' || c == '\x0c' ||
  c.toNat == 0xa0 || c.toNat == 0x1680 ||
  (0x2000 ≤ c.toNat && c.toNat ≤ 0x200a) ||
  c.toNat == 0x2028 || c.toNat == 0x2029 || c.toNat == 0x202f ||
  c.toNat == 0x205f || c.toNat == 0x3000 || c.toNat == 0xfeff

/-- The line-terminator set of the JavaScript regular-expression engine:
what `^` and `$` anchor to under the `m` flag, and what `.` excludes. -/
def isLineTerm (c : Char) : Bool :=
  c == '\n' || c == '\r' || c.toNat == 0x2028 || c.toNat == 0x2029

/-- The character class `\d`. -/
def isDig (c : Char) : Bool := 48 ≤ c.toNat && c.toNat ≤ 57

/-- The character class `\w`. -/
def isWord (c : Char) : Bool :=
  (65 ≤ c.toNat && c.toNat ≤ 90) || (97 ≤ c.toNat && c.toNat ≤ 122) ||
  (48 ≤ c.toNat && c.toNat ≤ 57) || c.toNat == 95

/-- Result record for one rule of one run (interface `PatchResult`). -/
structure PatchResult where
  name : Str
  success : Bool
  error : Option Str
deriving DecidableEq

/-- An anchored matcher: given the text starting at a candidate position,
return the length of the match there together with the replacement text
produced for that match (captures already substituted), or `none`. -/
abbrev Matcher := Str → Option (Nat × Str)

/-- Fuel-indexed worker for the global replace; the fuel only bounds the
recursion depth and `scanRepl` always supplies enough of it. -/
def scanReplF (m : Matcher) : Nat → Str → Str
  | _, [] => []
  | 0, s => s
  | fuel + 1, c :: cs =>
    match m (c :: cs) with
    | some (len, rep) => rep ++ scanReplF m fuel (List.drop (max len 1) (c :: cs))
    | none => c :: scanReplF m fuel cs

/-- Global replace (`String.replace` with a `g`-flagged pattern): scan left to
right, replace each leftmost match and resume after its end.  All matchers of
the rule table consume at least one character; `max len 1` only serves the
termination bound. -/
def scanRepl (m : Matcher) (s : Str) : Str := scanReplF m s.length s

theorem scanReplF_eq_of_le {m : Matcher} :
    ∀ (n : Nat) (s : Str), s.length ≤ n → ∀ f, s.length ≤ f →
      scanReplF m f s = scanReplF m s.length s := by
  intro n
  induction n with
  | zero =>
    intro s hs f _
    cases s with
    | nil => cases f <;> rfl
    | cons c cs => simp at hs
  | succ n ih =>
    intro s hs f hf
    cases s with
    | nil => cases f <;> rfl
    | cons c cs =>
      obtain ⟨f1, rfl⟩ : ∃ f1, f = f1 + 1 := ⟨f - 1, by simp at hf; omega⟩
      simp only [List.length_cons] at hs hf
      cases hm : m (c :: cs) with
      | some p =>
        obtain ⟨len, rep⟩ := p
        have hd : (List.drop (max len 1) (c :: cs)).length ≤ cs.length := by
          simp only [List.length_drop, List.length_cons]
          omega
        simp only [List.length_cons, scanReplF, hm]
        rw [ih _ (by omega) f1 (by omega), ih _ (by omega) cs.length (by omega)]
      | none =>
        simp only [List.length_cons, scanReplF, hm]
        rw [ih cs (by omega) f1 (by omega)]

theorem scanRepl_nil (m : Matcher) : scanRepl m [] = [] := rfl

theorem scanRepl_cons_none {m : Matcher} {c : Char} {cs : Str}
    (h : m (c :: cs) = none) : scanRepl m (c :: cs) = c :: scanRepl m cs := by
  unfold scanRepl
  simp only [List.length_cons, scanReplF, h]

theorem scanRepl_cons_some {m : Matcher} {c : Char} {cs : Str} {len : Nat}
    {rep : Str} (h : m (c :: cs) = some (len, rep)) :
    scanRepl m (c :: cs) = rep ++ scanRepl m (List.drop (max len 1) (c :: cs)) := by
  unfold scanRepl
  simp only [List.length_cons, scanReplF, h]
  congr 1
  have hd : (List.drop (max len 1) (c :: cs)).length ≤ cs.length := by
    simp only [List.length_drop, List.length_cons]
    omega
  exact scanReplF_eq_of_le cs.length _ hd cs.length hd

/-- Existence of a match at some position (`RegExp.test`). -/
def hasMatch (m : Matcher) : Str → Bool
  | [] => (m []).isSome
  | c :: cs => (m (c :: cs)).isSome || hasMatch m cs

/-- A matcher that also sees whether its position starts a line (needed for
the one `m`-flagged pattern of the table). -/
abbrev MatcherML := Bool → Str → Option (Nat × Str)

/-- First-match-only replace for the one non-`g` pattern of the table,
threading the line-start flag of the `m` flag. -/
def scanFirstML (m : MatcherML) : Bool → Str → Str
  | _, [] => []
  | atLS, c :: cs =>
    match m atLS (c :: cs) with
    | some (len, rep) => rep ++ List.drop (max len 1) (c :: cs)
    | none => c :: scanFirstML m (isLineTerm c) cs

/-- Match-existence test for the `m`-flagged pattern. -/
def hasMatchML (m : MatcherML) : Bool → Str → Bool
  | atLS, [] => (m atLS []).isSome
  | atLS, c :: cs => (m atLS (c :: cs)).isSome || hasMatchML m (isLineTerm c) cs

/-- A search pattern together with its replacement, embedded as the two
operations `applyPatch` performs with them (`pattern.test(content)` and
`content.replace(pattern, replacement)`). -/
structure Rexp where
  test : Str → Bool
  replaceAll : Str → Str

/-- Package an anchored matcher as a global (`g`-flagged) pattern. -/
def mkG (m : Matcher) : Rexp := ⟨hasMatch m, scanRepl m⟩

def notFoundErr : Str := "Pattern not found".toList

def noEffectErr : Str := "Replacement had no effect".toList

/-- The function `applyPatch` (lines 47–81 of the script): record
`Pattern not found` when the pattern has no match, `Replacement had no
effect` when the global replace returns the input unchanged, and otherwise
carry the replaced text forward. -/
def applyPatch (content name : Str) (pat : Rexp) : Str × PatchResult :=
  if pat.test content = false then
    (content, ⟨name, false, some notFoundErr⟩)
  else if pat.replaceAll content = content then
    (content, ⟨name, false, some noEffectErr⟩)
  else
    (pat.replaceAll content, ⟨name, true, none⟩)

/-! The fixed rule table.  Each rule's `RegExp` literal from the script is
translated into an anchored matcher.  Character classes are implemented by
maximal munch; this is exact for every pattern below whose class is followed
by a character the class excludes, and explicit backtracking is implemented
for the two patterns (`dotenv env-options`, `CLI exit handler`) where the
JavaScript engine can shrink a greedy class or grow a lazy one. -/

/-- Rule 1 search head: `function walkForTsConfig\(directory`. -/
def WALK_LIT : Str := "function walkForTsConfig(directory".toList

/-- Rule 1 replacement (lines 144–145). -/
def WALK_REPL : Str :=
  "function walkForTsConfig(directory, readdirSync) \x7b\n  return void 0; // PATCHED: disabled for Deno".toList

/-- Matcher of `/function walkForTsConfig\(directory[^)]*\)\s*\{/g`. -/
def matchWalk (s : Str) : Option (Nat × Str) :=
  match dropLit WALK_LIT s with
  | none => none
  | some s1 =>
    match s1.dropWhile (fun c => !(c == ')')) with
    | ')' :: s2 =>
      match s2.dropWhile isWs with
      | '\x7b' :: s3 => some (s.length - s3.length, WALK_REPL)
      | _ => none
    | _ => none

/-- Rule 2 search head: `recusivelyResolveSync\(options\)` (the typo is in
the original drizzle-kit code). -/
def RECUR_LIT : Str := "recusivelyResolveSync(options)".toList

/-- Rule 2 replacement (lines 160–161). -/
def RECUR_REPL : Str :=
  "recusivelyResolveSync(options) \x7b\n    return null; // PATCHED: disabled for Deno".toList

/-- Matcher of `/recusivelyResolveSync\(options\)\s*\{/g`. -/
def matchRecur (s : Str) : Option (Nat × Str) :=
  match dropLit RECUR_LIT s with
  | none => none
  | some s1 =>
    match s1.dropWhile isWs with
    | '\x7b' :: s2 => some (s.length - s2.length, RECUR_REPL)
    | _ => none

/-- Rule 3 search head: `function _supportsColor\(haveStream,`. -/
def SC_LIT : Str := "function _supportsColor(haveStream,".toList

/-- Rule 3 replacement (lines 175–178). -/
def SC_REPL : Str :=
  "function _supportsColor(haveStream, \x7b streamIsTTY, sniffFlags = true \x7d = \x7b\x7d) \x7b\n  // PATCHED: Return color level 3 (truecolor) without checking env vars for Deno\n  return 3;\n  // Original code below (unreachable):".toList

/-- Matcher of
`/function _supportsColor\(haveStream,\s*\{[^}]*\}\s*=\s*\{\}\)\s*\{/g`. -/
def matchSC (s : Str) : Option (Nat × Str) :=
  match dropLit SC_LIT s with
  | none => none
  | some s1 =>
    match s1.dropWhile isWs with
    | '\x7b' :: s2 =>
      match s2.dropWhile (fun c => !(c == '\x7d')) with
      | '\x7d' :: s3 =>
        match s3.dropWhile isWs with
        | '=' :: s4 =>
          match s4.dropWhile isWs with
          | '\x7b' :: '\x7d' :: ')' :: s5 =>
            match s5.dropWhile isWs with
            | '\x7b' :: s6 => some (s.length - s6.length, SC_REPL)
            | _ => none
          | _ => none
        | _ => none
      | _ => none
    | _ => none

/-- Rule 3b search head: `function supportsColor2\(stream\)`. -/
def SC2_LIT : Str := "function supportsColor2(stream)".toList

/-- Rule 3b replacement (lines 192–195). -/
def SC2_REPL : Str :=
  "function supportsColor2(stream) \x7b\n      // PATCHED: Return color level 3 (truecolor) without checking env vars for Deno\n      return 3;\n      // Original code below (unreachable):".toList

/-- Matcher of `/function supportsColor2\(stream\)\s*\{/g`. -/
def matchSC2 (s : Str) : Option (Nat × Str) :=
  match dropLit SC2_LIT s with
  | none => none
  | some s1 =>
    match s1.dropWhile isWs with
    | '\x7b' :: s2 => some (s.length - s2.length, SC2_REPL)
    | _ => none

/-- Rule 3c search pattern, a pure literal. -/
def BUF_LIT : Str := "if (!process.env.WS_NO_BUFFER_UTIL) \x7b".toList

/-- Rule 3c replacement (line 209). -/
def BUF_REPL : Str :=
  "if (false /* PATCHED: skip bufferutil for Deno */ && !process.env.WS_NO_BUFFER_UTIL) \x7b".toList

/-- Matcher for a pattern that is one literal. -/
def matchLitPat (lit rep : Str) (s : Str) : Option (Nat × Str) :=
  match dropLit lit s with
  | some _ => some (lit.length, rep)
  | none => none

/-- Rule 4 search head, up to the `[^"]+` class. -/
def DOT_OPT_PRE : Str := "\"../node_modules/.pnpm/dotenv@".toList

/-- Rule 4 middle literal, after the `[^"]+` class. -/
def DOT_OPT_MID : Str :=
  "/node_modules/dotenv/lib/env-options.js\"(exports2, module2) \x7b".toList

/-- Rule 4 tail literal, after the `\s*`. -/
def DOT_OPT_TAIL : Str := "var options = \x7b\x7d;".toList

/-- Rule 4 replacement (lines 223–227). -/
def DOT_OPT_REPL : Str :=
  "\"../node_modules/.pnpm/dotenv@16.4.5/node_modules/dotenv/lib/env-options.js\"(exports2, module2) \x7b\n    // PATCHED: Skip DOTENV_CONFIG_* env checks for Deno\n    module2.exports = \x7b\x7d;\n    return;\n    var options = \x7b\x7d;".toList

/-- Continuation of rule 4 after a candidate end of the `[^"]+` class. -/
def dotOptCont (s : Str) : Option Str :=
  match dropLit DOT_OPT_MID s with
  | none => none
  | some s2 => dropLit DOT_OPT_TAIL (s2.dropWhile isWs)

/-- Greedy backtracking over the `[^"]+` length: try `j`, `j-1`, …, `1`. -/
def dotOptSearch (s1 : Str) : Nat → Option Str
  | 0 => none
  | j + 1 =>
    match dotOptCont (s1.drop (j + 1)) with
    | some rest => some rest
    | none => dotOptSearch s1 j

/-- Matcher of the `dotenv env-options` pattern (line 222). -/
def matchDotOpt (s : Str) : Option (Nat × Str) :=
  match dropLit DOT_OPT_PRE s with
  | none => none
  | some s1 =>
    match dotOptSearch s1 (s1.takeWhile (fun c => !(c == '"'))).length with
    | some rest => some (s.length - rest.length, DOT_OPT_REPL)
    | none => none

/-- Rule 4b search head, up to the `[^/]+` class. -/
def DOT_CFG_PRE : Str := "// ../node_modules/.pnpm/dotenv@".toList

/-- Rule 4b literal after the `[^/]+` class. -/
def DOT_CFG_MID : Str := "/node_modules/dotenv/config.js".toList

/-- Rule 4b literal after the first `\s*`. -/
def DOT_CFG_FN : Str := "(function() \x7b".toList

/-- Rule 4b literal after the second `\s*`. -/
def DOT_CFG_REQ : Str := "require_main().config(".toList

/-- Rule 4b replacement (lines 241–243). -/
def DOT_CFG_REPL : Str :=
  "// ../node_modules/.pnpm/dotenv@16.4.5/node_modules/dotenv/config.js\n// PATCHED: Skip dotenv auto-config for Deno\n(function() \x7b return; require_main().config(".toList

/-- Matcher of the `dotenv config auto-call` pattern (line 240).  The class
`[^/]+` cannot cross its following `/`, so maximal munch is exact here. -/
def matchDotCfg (s : Str) : Option (Nat × Str) :=
  match dropLit DOT_CFG_PRE s with
  | none => none
  | some s1 =>
    if (s1.takeWhile (fun c => !(c == '/'))).length == 0 then none
    else
      match dropLit DOT_CFG_MID (s1.dropWhile (fun c => !(c == '/'))) with
      | none => none
      | some s2 =>
        match dropLit DOT_CFG_FN (s2.dropWhile isWs) with
        | none => none
        | some s3 =>
          match dropLit DOT_CFG_REQ (s3.dropWhile isWs) with
          | none => none
          | some s4 => some (s.length - s4.length, DOT_CFG_REPL)

/-- Rule 5 search pattern, a pure literal. -/
def HOME_LIT : Str := "var homedir = import_node_os2.default.homedir();".toList

/-- Rule 5 replacement (lines 257–258). -/
def HOME_REPL : Str :=
  "var homedir = \"\"; // PATCHED: deferred for Deno - will be set on first use\nvar _getHomedir = () => \x7b if (!homedir) homedir = import_node_os2.default.homedir(); return homedir; \x7d;".toList

/-- Rule 5b search pattern, a pure literal. -/
def TMP_LIT : Str := "var tmpdir = import_node_os2.default.tmpdir();".toList

/-- Rule 5b replacement (lines 272–273). -/
def TMP_REPL : Str :=
  "var tmpdir = \"\"; // PATCHED: deferred for Deno - will be set on first use\nvar _getTmpdir = () => \x7b if (!tmpdir) tmpdir = import_node_os2.default.tmpdir(); return tmpdir; \x7d;".toList

/-- Rule 5c search pattern, a pure literal. -/
def LAZYH_LIT : Str := "import_node_path.default.join(homedir,".toList

/-- Rule 5c replacement (line 287). -/
def LAZYH_REPL : Str := "import_node_path.default.join(_getHomedir(),".toList

/-- Rule 5d search pattern, a pure literal. -/
def LAZYT_LIT : Str := "import_node_path.default.join(tmpdir,".toList

/-- Rule 5d replacement (line 301). -/
def LAZYT_REPL : Str := "import_node_path.default.join(_getTmpdir(),".toList

/-- Rule 6 replacement (lines 315–316). -/
def SAFEREG_REPL : Str :=
  "safeRegister = async () => \x7b\n    return \x7b unregister: () => \x7b\x7d \x7d; // PATCHED: esbuild disabled for Deno".toList

/-- Rule 6 search head literal. -/
def SAFEREG_LIT : Str := "safeRegister".toList

/-- Matcher of `/safeRegister\s*=\s*async\s*\(\)\s*=>\s*\{/g`. -/
def matchSafeReg (s : Str) : Option (Nat × Str) :=
  match dropLit SAFEREG_LIT s with
  | none => none
  | some s1 =>
    match s1.dropWhile isWs with
    | '=' :: s2 =>
      match dropLit "async".toList (s2.dropWhile isWs) with
      | none => none
      | some s3 =>
        match s3.dropWhile isWs with
        | '(' :: ')' :: s4 =>
          match s4.dropWhile isWs with
          | '=' :: '>' :: s5 =>
            match s5.dropWhile isWs with
            | '\x7b' :: s6 => some (s.length - s6.length, SAFEREG_REPL)
            | _ => none
          | _ => none
        | _ => none
    | _ => none

/-- Rule 7 search head: ``const required = require(`${``. -/
def CFG_LIT : Str := "const required = require(`$\x7b".toList

/-- Rule 7 replacement builder (line 330): `$1` is the captured `\w+`. -/
def cfgRepl (g : Str) : Str :=
  "const required = await import(".toList ++ g ++
    "); // PATCHED: import for Deno TS support".toList

/-- Rule 8 search head: ``const i0 = require(`${``. -/
def SCHEMA_LIT : Str := "const i0 = require(`$\x7b".toList

/-- Rule 8 replacement builder (line 344). -/
def schemaRepl (g : Str) : Str :=
  "const i0 = await import(".toList ++ g ++
    "); // PATCHED: import for Deno TS support".toList

/-- Shared matcher shape of rules 7 and 8:
``<pre>(\w+)\}`\);`` with the capture fed to the replacement builder. -/
def matchRequireTpl (pre : Str) (mk : Str → Str) (s : Str) : Option (Nat × Str) :=
  match dropLit pre s with
  | none => none
  | some s1 =>
    let g := s1.takeWhile isWord
    if g.length == 0 then none
    else
      match dropLit "\x7d`);".toList (s1.drop g.length) with
      | none => none
      | some rest => some (s.length - rest.length, mk g)

/-- Rule 9 search head literal. -/
def CLI_LIT : Str := "run([generate, migrate, pull, push, studio".toList

/-- Rule 9 literal after the `.*` class. -/
def CLI_MID : Str := "], \x7b".toList

/-- Rule 9 replacement tail appended to the `$1` capture (line 360). -/
def CLI_SUFFIX : Str :=
  ".then(() => \x7b setTimeout(() => process.exit(0), 50); \x7d); // PATCHED: force exit for Deno".toList

/-- Index of the last line terminator of a list, if any. -/
def lastTerm : Str → Option Nat
  | [] => none
  | c :: cs =>
    match lastTerm cs with
    | some k => some (k + 1)
    | none => if isLineTerm c then some 0 else none

/-- Greedy `\s*$` under the `m` flag: consume as much whitespace as a
line-or-string end allows, returning the consumed length.  (Every line
terminator is itself whitespace, so a `$` position inside the consumed run
is a position before a terminator of that run.) -/
def wsDollar (s : Str) : Option Nat :=
  let run := s.takeWhile isWs
  if (s.drop run.length).isEmpty then some run.length
  else lastTerm run

/-- The `;?\s*$` tail of rule 9, returning its consumed length.  When the
optional `;` is taken but `\s*$` then fails, the zero-width alternative also
fails (the `;` itself is neither whitespace nor a line end), so the engine
moves on — hence the plain `none`. -/
def cliTail : Str → Option Nat
  | ';' :: s1 =>
    match wsDollar s1 with
    | some t => some (1 + t)
    | none => none
  | s =>
    match wsDollar s with
    | some t => some t
    | none => none

/-- Lazy `[\s\S]*?` of rule 9: find the smallest offset `k` at which `\}\)`
is followed by a succeeding tail; on a tail failure the lazy class grows. -/
def cliLazy : Str → Option (Nat × Nat)
  | [] => none
  | c :: cs =>
    match dropLit "\x7d)".toList (c :: cs) with
    | some after =>
      match cliTail after with
      | some t => some (0, t)
      | none =>
        match cliLazy cs with
        | some (k, t) => some (k + 1, t)
        | none => none
    | none =>
      match cliLazy cs with
      | some (k, t) => some (k + 1, t)
      | none => none

/-- Greedy `.*` of rule 9: try the split `j` (largest first) at which
`\], \{` continues, backtracking on any downstream failure. -/
def cliStar (s1 : Str) : Nat → Option (Nat × Nat × Nat)
  | 0 =>
    if isPref CLI_MID s1 then
      match cliLazy (s1.drop 4) with
      | some (k, t) => some (0, k, t)
      | none => none
    else none
  | j + 1 =>
    if isPref CLI_MID (s1.drop (j + 1)) then
      match cliLazy (s1.drop (j + 1 + 4)) with
      | some (k, t) => some (j + 1, k, t)
      | none => cliStar s1 j
    else cliStar s1 j

/-- Anchored matcher of rule 9,
`/^(run\(\[generate, migrate, pull, push, studio.*\], \{[\s\S]*?\}\));?\s*$/m`,
at a position already known to start a line. -/
def matchCliAt (s : Str) : Option (Nat × Str) :=
  match dropLit CLI_LIT s with
  | none => none
  | some s1 =>
    match cliStar s1 (s1.takeWhile (fun c => !(isLineTerm c))).length with
    | some (j, k, t) =>
      some (CLI_LIT.length + j + 4 + k + 2 + t,
        CLI_LIT ++ s1.take j ++ CLI_MID ++ (s1.drop (j + 4)).take k ++
          "\x7d)".toList ++ CLI_SUFFIX)
    | none => none

/-- Rule 9 matcher with the line-start requirement of its `^` anchor. -/
def mCli (atLS : Bool) (s : Str) : Option (Nat × Str) :=
  if atLS then matchCliAt s else none

/-- A named rule of the table: the order of the table is the order of the
fifteen `applyPatch` blocks of `patchDrizzleKit`. -/
structure Rule where
  name : Str
  pat : Rexp

/-- The rule table (the fifteen blocks at lines 136–364, in source order);
every entry except the last is a `g`-flagged pattern, and the last uses the
first-match-only `m`-flagged replace. -/
def RULES : List Rule :=
  [⟨"walkForTsConfig".toList, mkG matchWalk⟩,
   ⟨"recusivelyResolveSync".toList, mkG matchRecur⟩,
   ⟨"stub _supportsColor (chalk)".toList, mkG matchSC⟩,
   ⟨"stub supportsColor2 (colors)".toList, mkG matchSC2⟩,
   ⟨"skip bufferutil (ws)".toList, mkG (matchLitPat BUF_LIT BUF_REPL)⟩,
   ⟨"stub dotenv env-options".toList, mkG matchDotOpt⟩,
   ⟨"stub dotenv config auto-call".toList, mkG matchDotCfg⟩,
   ⟨"defer homedir (env-paths)".toList, mkG (matchLitPat HOME_LIT HOME_REPL)⟩,
   ⟨"defer tmpdir (env-paths)".toList, mkG (matchLitPat TMP_LIT TMP_REPL)⟩,
   ⟨"lazy homedir usage".toList, mkG (matchLitPat LAZYH_LIT LAZYH_REPL)⟩,
   ⟨"lazy tmpdir usage".toList, mkG (matchLitPat LAZYT_LIT LAZYT_REPL)⟩,
   ⟨"safeRegister (disable esbuild)".toList, mkG matchSafeReg⟩,
   ⟨"config loading (require → import)".toList, mkG (matchRequireTpl CFG_LIT cfgRepl)⟩,
   ⟨"schema loading (require → import)".toList, mkG (matchRequireTpl SCHEMA_LIT schemaRepl)⟩,
   ⟨"CLI exit handler".toList, ⟨hasMatchML mCli true, scanFirstML mCli true⟩⟩]

/-- The sequential rule pipeline: each block feeds `applyPatch` the previous
block's buffer and pushes its result. -/
def runRules : Str → List Rule → Str × List PatchResult
  | content, [] => (content, [])
  | content, r :: rs =>
    ((runRules (applyPatch content r.name r.pat).1 rs).1,
     (applyPatch content r.name r.pat).2 ::
       (runRules (applyPatch content r.name r.pat).1 rs).2)

/-- The current-version marker string (line 17). -/
def PATCH_MARKER : Str := "// DRIZZLE-KIT-DENO-PATCHED-V10".toList

/-- The marker line as inserted: marker plus the newline that follows it. -/
def MARKER_NL : Str := PATCH_MARKER ++ ['\n']

/-- The tested-version allow-list (line 20). -/
def SUPPORTED_VERSIONS : List Str := ["0.30.6".toList, "0.31.8".toList]

/-- The fixed critical-rule name set (lines 381–385). -/
def criticalPatches : List Str :=
  ["safeRegister (disable esbuild)".toList,
   "config loading (require → import)".toList,
   "schema loading (require → import)".toList]

/-- Marker insertion (lines 127–134).  `firstNl = none` reproduces the
JavaScript `indexOf` result `-1`, for which `slice(0, 0)` is empty and
`slice(0)` is the whole content, so the marker lands at the buffer start
even though the content begins with `#!`. -/
def insertMarker (content : Str) : Str :=
  if isPref "#!".toList content then
    match firstNl content with
    | some k => content.take (k + 1) ++ MARKER_NL ++ content.drop (k + 1)
    | none => MARKER_NL ++ content
  else MARKER_NL ++ content

/-- The stem of the looser old-marker pattern
`/\/\/ DRIZZLE-KIT-DENO-PATCHED-V(\d+)/` (line 119). -/
def OLD_MARKER_STEM : Str := "// DRIZZLE-KIT-DENO-PATCHED-V".toList

/-- Old-marker detection: the stem followed immediately by a digit (the
`(\d+)` group needs at least its first digit right after the `V`).  Its
only effect in the script is a log line announcing a re-patch. -/
def hasOldMarker : Str → Bool
  | [] => false
  | c :: cs =>
    (isPref OLD_MARKER_STEM (c :: cs) &&
      (match (c :: cs).drop OLD_MARKER_STEM.length with
        | d :: _ => isDig d
        | [] => false)) ||
    hasOldMarker cs

/-- How one run ends: a committed no-op (`already patched`), a single full
write of the final buffer, or an abort with no write. -/
inductive RunOutcome where
  | alreadyPatched : RunOutcome
  | committed : Str → RunOutcome
  | abortedCritical : RunOutcome
deriving DecidableEq

/-- Everything one run reports: the unsupported-version warning flag, the
old-marker log flag, the ordered per-rule results, the outcome, and the
process exit code. -/
structure RunReport where
  warnedUnsupported : Bool
  oldPatchDetected : Bool
  results : List PatchResult
  outcome : RunOutcome
  exitCode : Nat
deriving DecidableEq

/-- The version gate (lines 100–107): warn, never abort. -/
def versionWarned (version : Str) : Bool :=
  !(SUPPORTED_VERSIONS.contains version) && !(version == "unknown".toList)

/-- The run body of `patchDrizzleKit` (lines 99–405) after the artifact has
been located and read: version gate, marker check, old-marker check, marker
insertion, the rule pipeline, and the commit gate over `criticalPatches`. -/
def patchDrizzleKit (version content : Str) : RunReport :=
  if containsB PATCH_MARKER content then
    ⟨versionWarned version, false, [], RunOutcome.alreadyPatched, 0⟩
  else
    if ((runRules (insertMarker content) RULES).2.filter
        (fun r => !r.success && criticalPatches.contains r.name)).length > 0 then
      ⟨versionWarned version, hasOldMarker content,
        (runRules (insertMarker content) RULES).2,
        RunOutcome.abortedCritical, 1⟩
    else
      ⟨versionWarned version, hasOldMarker content,
        (runRules (insertMarker content) RULES).2,
        RunOutcome.committed (runRules (insertMarker content) RULES).1, 0⟩

/-- The artifact content on disk after a run on `content`: only a
`committed` outcome writes (once, the whole buffer); an abort or a no-op
leaves the file byte-identical. -/
def diskAfter (version content : Str) : Str :=
  match (patchDrizzleKit version content).outcome with
  | RunOutcome.committed out => out
  | _ => content

/-- Version-extraction head literal of `/drizzle-kit@(\d+\.\d+\.\d+)/`. -/
def VER_LIT : Str := "drizzle-kit@".toList

/-- Anchored matcher of the version pattern, returning the capture. -/
def matchVer (s : Str) : Option Str :=
  match dropLit VER_LIT s with
  | none => none
  | some s1 =>
    let d1 := s1.takeWhile isDig
    if d1.length == 0 then none
    else
      match s1.drop d1.length with
      | '.' :: s2 =>
        let d2 := s2.takeWhile isDig
        if d2.length == 0 then none
        else
          match s2.drop d2.length with
          | '.' :: s3 =>
            let d3 := s3.takeWhile isDig
            if d3.length == 0 then none
            else some (d1 ++ ['.'] ++ d2 ++ ['.'] ++ d3)
          | _ => none
      | _ => none

/-- Leftmost application of `matchVer` over a path. -/
def findVer : Str → Option Str
  | [] => matchVer []
  | c :: cs =>
    match matchVer (c :: cs) with
    | some v => some v
    | none => findVer cs

/-- Version extraction of `findDrizzleKitBin` (lines 38–41):
`path.match(/drizzle-kit@(\d+\.\d+\.\d+)/)?.[1] ?? "unknown"`. -/
def extractVersion (path : Str) : Str :=
  match findVer path with
  | some v => v
  | none => "unknown".toList

/-! Basic facts about `isPref`, `containsB` and `countOcc`. -/

theorem isPref_self_append (p t : Str) : isPref p (p ++ t) = true := by
  induction p with
  | nil => rfl
  | cons a as ih => simp [isPref, ih]

theorem isPref_iff_exists (p s : Str) : isPref p s = true ↔ ∃ t, s = p ++ t := by
  constructor
  · intro h
    induction p generalizing s with
    | nil => exact ⟨s, rfl⟩
    | cons a as ih =>
      cases s with
      | nil => simp [isPref] at h
      | cons b bs =>
        simp only [isPref, Bool.and_eq_true, beq_iff_eq] at h
        obtain ⟨t, ht⟩ := ih bs h.2
        exact ⟨t, by simp [h.1, ht]⟩
  · rintro ⟨t, rfl⟩
    exact isPref_self_append p t

theorem isPref_trans {p q s : Str} (h1 : isPref p q = true)
    (h2 : isPref q s = true) : isPref p s = true := by
  rw [isPref_iff_exists] at h1 h2 ⊢
  obtain ⟨t1, rfl⟩ := h1
  obtain ⟨t2, rfl⟩ := h2
  exact ⟨t1 ++ t2, by simp⟩

theorem isPref_append_right {p u : Str} (h : isPref p u = true) (v : Str) :
    isPref p (u ++ v) = true := by
  rw [isPref_iff_exists] at h ⊢
  obtain ⟨t, rfl⟩ := h
  exact ⟨t ++ v, by simp⟩

theorem containsB_of_isPref {p s : Str} (h : isPref p s = true) :
    containsB p s = true := by
  cases s with
  | nil =>
    simpa [containsB] using h
  | cons c cs => simp [containsB, h]

theorem containsB_append_left {p x : Str} (h : containsB p x = true) (u : Str) :
    containsB p (u ++ x) = true := by
  induction u with
  | nil => simpa using h
  | cons c cs ih => simp [containsB, ih]

theorem containsB_cons_of {p : Str} {cs : Str} (c : Char)
    (h : containsB p cs = true) : containsB p (c :: cs) = true := by
  simp [containsB, h]

theorem containsB_of_drop {p s : Str} (i : Nat)
    (h : isPref p (s.drop i) = true) : containsB p s = true := by
  induction s generalizing i with
  | nil =>
    simp only [List.drop_nil] at h
    simpa [containsB] using h
  | cons c cs ih =>
    cases i with
    | zero => simpa [containsB] using Or.inl h
    | succ j => exact containsB_cons_of c (ih j h)

theorem containsB_iff_drop (p s : Str) :
    containsB p s = true ↔ ∃ i, isPref p (s.drop i) = true := by
  constructor
  · intro h
    induction s with
    | nil => exact ⟨0, by simpa [containsB] using h⟩
    | cons c cs ih =>
      simp only [containsB, Bool.or_eq_true] at h
      rcases h with h | h
      · exact ⟨0, h⟩
      · obtain ⟨i, hi⟩ := ih h
        exact ⟨i + 1, hi⟩
  · rintro ⟨i, hi⟩
    exact containsB_of_drop i hi

theorem containsB_false_cons {p : Str} {c : Char} {cs : Str}
    (h : containsB p (c :: cs) = false) : containsB p cs = false := by
  by_contra hc
  simp only [Bool.not_eq_false] at hc
  simp [containsB, hc] at h

theorem countOcc_zero_of_not_contains {p s : Str}
    (h : containsB p s = false) : countOcc p s = 0 := by
  induction s with
  | nil =>
    simp only [containsB] at h
    simp [countOcc, h]
  | cons c cs ih =>
    have h1 : isPref p (c :: cs) = false := by
      by_contra hp
      simp only [Bool.not_eq_false] at hp
      simp [containsB, hp] at h
    simp [countOcc, h1, ih (containsB_false_cons h)]

theorem containsB_false_drop {p s : Str} (h : containsB p s = false) (i : Nat) :
    containsB p (s.drop i) = false := by
  induction s generalizing i with
  | nil => simpa using h
  | cons c cs ih =>
    cases i with
    | zero => simpa using h
    | succ j => exact ih (containsB_false_cons h) j

/-! The clash machinery: a decidable certificate that a pattern head literal
mismatches every suffix of a given region, so no anchored matcher can fire
inside that region whatever follows it. -/

/-- Bool: `lit` and `pre` disagree at some position both of them cover. -/
def litClash : Str → Str → Bool
  | [], _ => false
  | _ :: _, [] => false
  | a :: as, b :: bs => !(a == b) || litClash as bs

theorem isPref_false_of_litClash {lit pre : Str} (h : litClash lit pre = true)
    (x : Str) : isPref lit (pre ++ x) = false := by
  induction lit generalizing pre with
  | nil => simp [litClash] at h
  | cons a as ih =>
    cases pre with
    | nil => simp [litClash] at h
    | cons b bs =>
      simp only [litClash, Bool.or_eq_true, Bool.not_eq_eq_eq_not,
        Bool.not_true] at h
      rcases h with h | h
      · simp [isPref, h]
      · simp [isPref, ih h]

/-- Bool: `lit` clashes with every nonempty suffix of `pre`. -/
def allClash (lit : Str) : Str → Bool
  | [] => true
  | c :: cs => litClash lit (c :: cs) && allClash lit cs

theorem allClash_head {lit : Str} {c : Char} {cs : Str}
    (h : allClash lit (c :: cs) = true) : litClash lit (c :: cs) = true := by
  simpa [allClash, Bool.and_eq_true] using (Bool.and_eq_true _ _ |>.mp h).1

theorem allClash_tail {lit : Str} {c : Char} {cs : Str}
    (h : allClash lit (c :: cs) = true) : allClash lit cs = true := by
  simpa [allClash, Bool.and_eq_true] using (Bool.and_eq_true _ _ |>.mp h).2

/-! Pass-through lemmas: a scan over `pre ++ x` leaves `pre` untouched when
the matcher cannot fire at any position inside `pre`. -/

theorem scanRepl_append_of_none {m : Matcher} {pre : Str}
    (h : ∀ i, i < pre.length → ∀ x, m (pre.drop i ++ x) = none) (x : Str) :
    scanRepl m (pre ++ x) = pre ++ scanRepl m x := by
  induction pre with
  | nil => rfl
  | cons c cs ih =>
    have h0 : m (c :: (cs ++ x)) = none := by
      simpa using h 0 (by simp) x
    have hrec : scanRepl m (cs ++ x) = cs ++ scanRepl m x :=
      ih (fun i hi x' => by simpa using h (i + 1) (by simpa using hi) x')
    rw [List.cons_append, scanRepl_cons_none h0, hrec]
    rfl

/-- The matcher of a rule whose pattern head is the literal `lit` cannot fire
anywhere inside `pre` when `allClash lit pre` holds. -/
theorem scanRepl_append_of_clash {m : Matcher} {lit : Str}
    (hm : ∀ s, isPref lit s = false → m s = none) {pre : Str}
    (hc : allClash lit pre = true) (x : Str) :
    scanRepl m (pre ++ x) = pre ++ scanRepl m x := by
  apply scanRepl_append_of_none
  intro i hi x'
  apply hm
  have : litClash lit (pre.drop i) = true := by
    clear hm
    induction pre generalizing i with
    | nil => simp at hi
    | cons c cs ih =>
      cases i with
      | zero => simpa using allClash_head hc
      | succ j => exact ih (allClash_tail hc) j (by simpa using hi)
  have hd : pre.drop i ++ x' = (pre.drop i) ++ x' := rfl
  rw [hd]
  exact isPref_false_of_litClash this x'

/-! Further decomposition lemmas for `isPref`, `takeWhile` and `dropWhile`. -/

theorem dropLit_append (lit x : Str) : dropLit lit (lit ++ x) = some x := by
  unfold dropLit
  rw [isPref_self_append]
  simp

theorem isPref_append_long {p : Str} :
    ∀ {u : Str}, p.length ≤ u.length → ∀ v, isPref p (u ++ v) = isPref p u := by
  induction p with
  | nil => intro u _ v; rfl
  | cons a as ih =>
    intro u hu v
    cases u with
    | nil => simp at hu
    | cons b bs =>
      simp only [List.cons_append, isPref, List.append_eq]
      rw [ih (by simpa using hu) v]

theorem isPref_split {p : Str} : ∀ {u v : Str}, isPref p (u ++ v) = true →
    isPref p u = true ∨
      (u.length < p.length ∧ isPref u p = true ∧
        isPref (p.drop u.length) v = true) := by
  induction p with
  | nil => intro u v _; left; cases u <;> rfl
  | cons a as ih =>
    intro u v h
    cases u with
    | nil =>
      right
      exact ⟨by simp, rfl, by simpa using h⟩
    | cons b bs =>
      simp only [List.cons_append, isPref, Bool.and_eq_true, beq_iff_eq] at h
      rcases ih h.2 with h2 | ⟨hl, hp, hd⟩
      · left
        simp [isPref, h.1, h2]
      · right
        refine ⟨by simpa using Nat.succ_lt_succ hl, ?_, ?_⟩
        · simp [isPref, h.1.symm, hp]
        · simpa using hd

theorem isPref_mem {u v : Str} (h : isPref u v = true) {a : Char}
    (ha : a ∈ u) : a ∈ v := by
  induction u generalizing v with
  | nil => simp at ha
  | cons b bs ih =>
    cases v with
    | nil => simp [isPref] at h
    | cons c cs =>
      simp only [isPref, Bool.and_eq_true, beq_iff_eq] at h
      rcases List.mem_cons.mp ha with rfl | ha2
      · simp [h.1]
      · exact List.mem_cons.mpr (Or.inr (ih h.2 ha2))

theorem dropWhile_append_of_ne {p : Char → Bool} {u : Str}
    (h : u.dropWhile p ≠ []) (v : Str) :
    (u ++ v).dropWhile p = u.dropWhile p ++ v := by
  induction u with
  | nil => simp [List.dropWhile] at h
  | cons a as ih =>
    cases hp : p a with
    | true =>
      have h2 : as.dropWhile p ≠ [] := by
        simpa [List.dropWhile, hp] using h
      simp [List.dropWhile, hp, ih h2]
    | false => simp [List.dropWhile, hp]

theorem takeWhile_append_of_ne {p : Char → Bool} {u : Str}
    (h : u.dropWhile p ≠ []) (v : Str) :
    (u ++ v).takeWhile p = u.takeWhile p := by
  induction u with
  | nil => simp [List.dropWhile] at h
  | cons a as ih =>
    cases hp : p a with
    | true =>
      have h2 : as.dropWhile p ≠ [] := by
        simpa [List.dropWhile, hp] using h
      simp [List.takeWhile, hp, ih h2]
    | false => simp [List.takeWhile, hp]

theorem hasMatch_of_drop {m : Matcher} {s : Str} {i : Nat} {r : Nat × Str}
    (h : m (s.drop i) = some r) : hasMatch m s = true := by
  induction s generalizing i with
  | nil =>
    simp only [List.drop_nil] at h
    simp [hasMatch, h]
  | cons c cs ih =>
    cases i with
    | zero =>
      simp only [List.drop_zero] at h
      simp [hasMatch, h]
    | succ j =>
      simp only [List.drop_succ_cons] at h
      simp [hasMatch, ih h]

theorem firstNl_spec {s : Str} {k : Nat} (h : firstNl s = some k) :
    ∃ hk : k < s.length, s.get ⟨k, hk⟩ = '\n' := by
  induction s generalizing k with
  | nil => simp [firstNl] at h
  | cons a as ih =>
    by_cases ha : a == '\n'
    · simp only [firstNl, ha, if_true] at h
      cases h
      exact ⟨by simp, by simpa using ha⟩
    · simp only [firstNl, ha, if_false] at h
      cases hr : firstNl as with
      | none => rw [hr] at h; simp at h
      | some j =>
        rw [hr] at h
        simp only [Bool.false_eq_true, if_false, Option.some.injEq] at h
        subst h
        obtain ⟨hj, hje⟩ := ih hr
        exact ⟨by simpa using Nat.succ_lt_succ hj, by simpa using hje⟩

theorem countOcc_append_of_none {p : Str} {a : Str} {x : Str}
    (h : ∀ i, i < a.length → isPref p (a.drop i ++ x) = false) :
    countOcc p (a ++ x) = countOcc p x := by
  induction a with
  | nil => rfl
  | cons c cs ih =>
    have h0 : isPref p (c :: (cs ++ x)) = false := by simpa using h 0 (by simp)
    have hrec : countOcc p (cs ++ x) = countOcc p x :=
      ih (fun i hi => by simpa using h (i + 1) (by simpa using hi))
    simp [countOcc, h0, hrec]

theorem countOcc_append_of_clash {p : Str} {a : Str}
    (hc : allClash p a = true) (x : Str) :
    countOcc p (a ++ x) = countOcc p x := by
  apply countOcc_append_of_none
  intro i hi
  have : litClash p (a.drop i) = true := by
    induction a generalizing i with
    | nil => simp at hi
    | cons c cs ih =>
      cases i with
      | zero => simpa using allClash_head hc
      | succ j => exact ih (allClash_tail hc) j (by simpa using hi)
  exact isPref_false_of_litClash this x

/-- The rewriting equations of `insertMarker` in its three cases. -/
theorem insertMarker_no_shebang {c : Str} (h : isPref "#!".toList c = false) :
    insertMarker c = MARKER_NL ++ c := by
  unfold insertMarker
  rw [h]
  simp

theorem insertMarker_shebang_some {c : Str} {k : Nat}
    (hsh : isPref "#!".toList c = true) (hfn : firstNl c = some k) :
    insertMarker c = c.take (k + 1) ++ MARKER_NL ++ c.drop (k + 1) := by
  unfold insertMarker
  rw [hsh, hfn]
  simp

theorem insertMarker_shebang_none {c : Str}
    (hsh : isPref "#!".toList c = true) (hfn : firstNl c = none) :
    insertMarker c = MARKER_NL ++ c := by
  unfold insertMarker
  rw [hsh, hfn]
  simp

/-- The trailing newline of the first-line part `s.take (k+1)` is a member
of every nonempty suffix of that part. -/
theorem newline_mem_take_drop {s : Str} {k : Nat} (hk : k < s.length)
    (hnl : s.get ⟨k, hk⟩ = '\n') {i : Nat} (hi : i < k + 1) :
    '\n' ∈ (s.take (k + 1)).drop i := by
  have hb : k - i < ((s.take (k + 1)).drop i).length := by
    rw [List.length_drop, List.length_take]
    omega
  have hgoal : ((s.take (k + 1)).drop i).get ⟨k - i, hb⟩ = '\n' := by
    rw [List.get_eq_getElem, List.getElem_drop, List.getElem_take]
    have hik : i + (k - i) = k := by omega
    simp only [hik]
    simpa [List.get_eq_getElem] using hnl
  exact hgoal ▸ List.get_mem _ _ hb

/-- An occurrence of a newline-free pattern that starts inside the first
`k+1` characters of `s` (whose character at `k` is a newline) cannot cross
that newline into arbitrary following text, so it is an occurrence in `s`
itself. -/
theorem occurrence_in_take {p s : Str} (hp : '\n' ∉ p) {k : Nat}
    (hk : k < s.length) (hnl : s.get ⟨k, hk⟩ = '\n')
    {i : Nat} (hi : i < k + 1) {x : Str}
    (h : isPref p ((s.take (k + 1)).drop i ++ x) = true) :
    isPref p (s.drop i) = true := by
  rcases isPref_split h with h1 | ⟨hlen, hup, -⟩
  · have hsplit : s.drop i = (s.take (k + 1)).drop i ++ s.drop (k + 1) := by
      conv_lhs => rw [← List.take_append_drop (k + 1) s]
      rw [List.drop_append_of_le_length (by rw [List.length_take]; omega)]
    rw [hsplit]
    exact isPref_append_right h1 _
  · exact absurd (isPref_mem hup (newline_mem_take_drop hk hnl hi)) hp

/-- Conversely, an occurrence of a newline-free pattern in `s` survives the
marker insertion after the first newline. -/
theorem occurrence_into_insert {p s : Str} (hp : '\n' ∉ p) {k : Nat}
    (hk : k < s.length) (hnl : s.get ⟨k, hk⟩ = '\n') {i : Nat}
    (hi : isPref p (s.drop i) = true) :
    containsB p (s.take (k + 1) ++ (MARKER_NL ++ s.drop (k + 1))) = true := by
  by_cases hik : i < k + 1
  · have hsplit : s.drop i = (s.take (k + 1)).drop i ++ s.drop (k + 1) := by
      conv_lhs => rw [← List.take_append_drop (k + 1) s]
      rw [List.drop_append_of_le_length (by rw [List.length_take]; omega)]
    rw [hsplit] at hi
    rcases isPref_split hi with h1 | ⟨hlen, hup, -⟩
    · apply containsB_of_drop i
      rw [List.drop_append_of_le_length (by rw [List.length_take]; omega)]
      exact isPref_append_right h1 _
    · exact absurd (isPref_mem hup (newline_mem_take_drop hk hnl hik)) hp
  · have hdd : s.drop i = (s.drop (k + 1)).drop (i - (k + 1)) := by
      rw [List.drop_drop]
      congr 1
      omega
    rw [hdd] at hi
    have hB : containsB p (s.drop (k + 1)) = true := containsB_of_drop _ hi
    have := containsB_append_left hB (s.take (k + 1) ++ MARKER_NL)
    simpa [List.append_assoc] using this

/-- Marker insertion preserves containment of any newline-free pattern. -/
theorem containsB_insertMarker {p c : Str} (hp : '\n' ∉ p)
    (h : containsB p c = true) : containsB p (insertMarker c) = true := by
  by_cases hsh : isPref "#!".toList c = true
  · cases hfn : firstNl c with
    | none =>
      rw [insertMarker_shebang_none hsh hfn]
      exact containsB_append_left h _
    | some k =>
      obtain ⟨i, hi⟩ := (containsB_iff_drop p c).mp h
      obtain ⟨hk, hnl⟩ := firstNl_spec hfn
      rw [insertMarker_shebang_some hsh hfn, List.append_assoc]
      exact occurrence_into_insert hp hk hnl hi
  · rw [insertMarker_no_shebang (by simpa using hsh)]
    exact containsB_append_left h _

/-- No occurrence of a newline-free pattern absent from `s` can start in the
first-line part of the marker insertion. -/
theorem no_occurrence_in_take {p s : Str} (hp : '\n' ∉ p)
    (hc : containsB p s = false) {k : Nat}
    (hk : k < s.length) (hnl : s.get ⟨k, hk⟩ = '\n') :
    ∀ i, i < k + 1 → ∀ x, isPref p ((s.take (k + 1)).drop i ++ x) = false := by
  intro i hi x
  by_contra h
  simp only [Bool.not_eq_false] at h
  have h2 := containsB_of_drop i (occurrence_in_take hp hk hnl hi h)
  rw [hc] at h2
  exact absurd h2 (by simp)

/-- Line-start flag after scanning `pre`, starting from `flag`. -/
def endFlag : Bool → Str → Bool
  | flag, [] => flag
  | _, c :: cs => endFlag (isLineTerm c) cs

/-- Bool: at every line-start position inside `pre` (given the incoming
flag), `lit` clashes with the corresponding suffix. -/
def lineClash (lit : Str) : Bool → Str → Bool
  | flag, [] => (flag == false) || true
  | flag, c :: cs =>
    (!flag || litClash lit (c :: cs)) && lineClash lit (isLineTerm c) cs

theorem scanFirstML_append_of_clash {m : MatcherML} {lit : Str}
    (hm0 : ∀ s, m false s = none)
    (hm1 : ∀ s, isPref lit s = false → m true s = none)
    {pre : Str} {flag : Bool} (hc : lineClash lit flag pre = true) (x : Str) :
    scanFirstML m flag (pre ++ x) = pre ++ scanFirstML m (endFlag flag pre) x := by
  induction pre generalizing flag with
  | nil => rfl
  | cons c cs ih =>
    have hc1 : (!flag || litClash lit (c :: cs)) = true := by
      simpa [lineClash, Bool.and_eq_true] using
        (Bool.and_eq_true _ _ |>.mp hc).1
    have hc2 : lineClash lit (isLineTerm c) cs = true := by
      simpa [lineClash, Bool.and_eq_true] using
        (Bool.and_eq_true _ _ |>.mp hc).2
    have hnone : m flag (c :: (cs ++ x)) = none := by
      cases flag with
      | false => exact hm0 _
      | true =>
        apply hm1
        simp only [Bool.not_true, Bool.false_or] at hc1
        simpa using isPref_false_of_litClash hc1 x
    simp only [List.cons_append, scanFirstML, List.append_eq]
    rw [hnone]
    simp [ih hc2, endFlag]

/-! The matchers of the rule table return `none` whenever their head literal
fails, so the clash certificates apply to them. -/

theorem matchWalk_none {s : Str} (h : isPref WALK_LIT s = false) :
    matchWalk s = none := by simp [matchWalk, dropLit, h]

theorem matchRecur_none {s : Str} (h : isPref RECUR_LIT s = false) :
    matchRecur s = none := by simp [matchRecur, dropLit, h]

theorem matchSC_none {s : Str} (h : isPref SC_LIT s = false) :
    matchSC s = none := by simp [matchSC, dropLit, h]

theorem matchSC2_none {s : Str} (h : isPref SC2_LIT s = false) :
    matchSC2 s = none := by simp [matchSC2, dropLit, h]

theorem matchLitPat_none {lit rep : Str} {s : Str}
    (h : isPref lit s = false) : matchLitPat lit rep s = none := by
  simp [matchLitPat, dropLit, h]

theorem matchDotOpt_none {s : Str} (h : isPref DOT_OPT_PRE s = false) :
    matchDotOpt s = none := by simp [matchDotOpt, dropLit, h]

theorem matchDotCfg_none {s : Str} (h : isPref DOT_CFG_PRE s = false) :
    matchDotCfg s = none := by simp [matchDotCfg, dropLit, h]

theorem matchSafeReg_none {s : Str}
    (h : isPref SAFEREG_LIT s = false) : matchSafeReg s = none := by
  simp [matchSafeReg, dropLit, h]

theorem matchRequireTpl_none {pre : Str} {mk : Str → Str} {s : Str}
    (h : isPref pre s = false) : matchRequireTpl pre mk s = none := by
  simp [matchRequireTpl, dropLit, h]

theorem mCli_false (s : Str) : mCli false s = none := by simp [mCli]

theorem mCli_true_none {s : Str} (h : isPref CLI_LIT s = false) :
    mCli true s = none := by simp [mCli, matchCliAt, dropLit, h]

/-! Marker-prefix preservation: no rule of the table can fire at a position
inside the freshly inserted marker line, so the pipeline carries the marker
line unchanged at the front of the buffer. -/

/-- A rule whose replace leaves a leading `MARKER_NL` in place. -/
def KeepsMarker (r : Rule) : Prop :=
  ∀ x, ∃ y, r.pat.replaceAll (MARKER_NL ++ x) = MARKER_NL ++ y

theorem keepsMarker_mkG {m : Matcher} {lit : Str}
    (hm : ∀ s, isPref lit s = false → m s = none)
    (hc : allClash lit MARKER_NL = true) (name : Str) :
    KeepsMarker ⟨name, mkG m⟩ := by
  intro x
  exact ⟨scanRepl m x, scanRepl_append_of_clash hm hc x⟩

theorem keepsMarker_all : ∀ r ∈ RULES, KeepsMarker r := by
  intro r hr
  simp only [RULES, List.mem_cons, List.not_mem_nil, or_false] at hr
  rcases hr with rfl | rfl | rfl | rfl | rfl | rfl | rfl | rfl | rfl | rfl |
    rfl | rfl | rfl | rfl | rfl
  · exact keepsMarker_mkG (fun _ => matchWalk_none) (by decide) _
  · exact keepsMarker_mkG (fun _ => matchRecur_none) (by decide) _
  · exact keepsMarker_mkG (fun _ => matchSC_none) (by decide) _
  · exact keepsMarker_mkG (fun _ => matchSC2_none) (by decide) _
  · exact keepsMarker_mkG (fun _ => matchLitPat_none) (by decide) _
  · exact keepsMarker_mkG (fun _ => matchDotOpt_none) (by decide) _
  · exact keepsMarker_mkG (fun _ => matchDotCfg_none) (by decide) _
  · exact keepsMarker_mkG (fun _ => matchLitPat_none) (by decide) _
  · exact keepsMarker_mkG (fun _ => matchLitPat_none) (by decide) _
  · exact keepsMarker_mkG (fun _ => matchLitPat_none) (by decide) _
  · exact keepsMarker_mkG (fun _ => matchLitPat_none) (by decide) _
  · exact keepsMarker_mkG (fun _ => matchSafeReg_none) (by decide) _
  · exact keepsMarker_mkG (fun _ => matchRequireTpl_none) (by decide) _
  · exact keepsMarker_mkG (fun _ => matchRequireTpl_none) (by decide) _
  · intro x
    refine ⟨scanFirstML mCli (endFlag true MARKER_NL) x, ?_⟩
    have hclash : lineClash CLI_LIT true MARKER_NL = true := by decide
    have := scanFirstML_append_of_clash mCli_false
      (fun _ h => mCli_true_none h) hclash x
    simpa using this

theorem applyPatch_keeps_marker {r : Rule} (hk : KeepsMarker r) (x : Str) :
    ∃ y, (applyPatch (MARKER_NL ++ x) r.name r.pat).1 = MARKER_NL ++ y := by
  unfold applyPatch
  split
  · exact ⟨x, rfl⟩
  · split
    · exact ⟨x, rfl⟩
    · exact hk x

theorem runRules_keeps_marker {rules : List Rule}
    (hk : ∀ r ∈ rules, KeepsMarker r) (x : Str) :
    ∃ y, (runRules (MARKER_NL ++ x) rules).1 = MARKER_NL ++ y := by
  induction rules generalizing x with
  | nil => exact ⟨x, rfl⟩
  | cons r rs ih =>
    obtain ⟨y1, hy1⟩ := applyPatch_keeps_marker (hk r (by simp)) x
    obtain ⟨y2, hy2⟩ := ih (fun r' hr' => hk r' (by simp [hr'])) y1
    refine ⟨y2, ?_⟩
    simp only [runRules]
    rw [hy1, hy2]

/-! Structural facts about the orchestration. -/

theorem applyPatch_name (c n : Str) (p : Rexp) :
    ((applyPatch c n p).2).name = n := by
  unfold applyPatch
  split
  · rfl
  · split <;> rfl

theorem runRules_names (c : Str) (rules : List Rule) :
    ((runRules c rules).2).map PatchResult.name = rules.map Rule.name := by
  induction rules generalizing c with
  | nil => rfl
  | cons r rs ih => simp [runRules, applyPatch_name, ih]

theorem patchDrizzleKit_eq_noop (v c : Str)
    (h : containsB PATCH_MARKER c = true) :
    patchDrizzleKit v c =
      ⟨versionWarned v, false, [], RunOutcome.alreadyPatched, 0⟩ := by
  simp [patchDrizzleKit, h]

theorem patchDrizzleKit_eq_abort (v c : Str)
    (h : containsB PATCH_MARKER c = false)
    (hf : ((runRules (insertMarker c) RULES).2.filter
        (fun r => !r.success && criticalPatches.contains r.name)).length > 0) :
    patchDrizzleKit v c =
      ⟨versionWarned v, hasOldMarker c, (runRules (insertMarker c) RULES).2,
        RunOutcome.abortedCritical, 1⟩ := by
  unfold patchDrizzleKit
  rw [h]
  simp only [Bool.false_eq_true, if_false]
  rw [if_pos hf]

theorem patchDrizzleKit_eq_commit (v c : Str)
    (h : containsB PATCH_MARKER c = false)
    (hf : ¬ ((runRules (insertMarker c) RULES).2.filter
        (fun r => !r.success && criticalPatches.contains r.name)).length > 0) :
    patchDrizzleKit v c =
      ⟨versionWarned v, hasOldMarker c, (runRules (insertMarker c) RULES).2,
        RunOutcome.committed (runRules (insertMarker c) RULES).1, 0⟩ := by
  unfold patchDrizzleKit
  rw [h]
  simp only [Bool.false_eq_true, if_false]
  rw [if_neg hf]

theorem patchDrizzleKit_results (v c : Str) (h : containsB PATCH_MARKER c = false) :
    (patchDrizzleKit v c).results = (runRules (insertMarker c) RULES).2 := by
  by_cases hf : ((runRules (insertMarker c) RULES).2.filter
      (fun r => !r.success && criticalPatches.contains r.name)).length > 0
  · rw [patchDrizzleKit_eq_abort v c h hf]
  · rw [patchDrizzleKit_eq_commit v c h hf]

theorem gate_iff (v c : Str) (h : containsB PATCH_MARKER c = false) :
    (patchDrizzleKit v c).exitCode = 1 ↔
      ∃ r ∈ (patchDrizzleKit v c).results, r.success = false ∧
        criticalPatches.contains r.name = true := by
  rw [patchDrizzleKit_results v c h]
  unfold patchDrizzleKit
  rw [h]
  simp only [Bool.false_eq_true, if_false]
  split
  · rename_i hf
    simp only [true_iff]
    have hne : ((runRules (insertMarker c) RULES).2.filter
        (fun r => !r.success && criticalPatches.contains r.name)) ≠ [] := by
      intro hnil
      rw [hnil] at hf
      simp at hf
    obtain ⟨r, hr⟩ := List.exists_mem_of_ne_nil _ hne
    have := List.mem_filter.mp hr
    refine ⟨r, this.1, ?_, ?_⟩
    · have := this.2
      simp only [Bool.and_eq_true, Bool.not_eq_eq_eq_not, Bool.not_true] at this
      exact this.1
    · have := this.2
      simp only [Bool.and_eq_true] at this
      exact this.2
  · rename_i hf
    simp only [Nat.zero_ne_one, false_iff]  -- exit code 0 in commit branch
    rintro ⟨r, hr, hs, hcrit⟩
    apply hf
    have : r ∈ (runRules (insertMarker c) RULES).2.filter
        (fun r => !r.success && criticalPatches.contains r.name) :=
      List.mem_filter.mpr ⟨hr, by rw [hs, hcrit]; rfl⟩
    have := List.length_pos.mpr (List.ne_nil_of_mem this)
    omega

theorem exit_one_no_write (v c : Str) :
    (patchDrizzleKit v c).exitCode = 1 → diskAfter v c = c := by
  unfold diskAfter patchDrizzleKit
  split
  · intro h
    simp at h
  · split
    · intro _
      rfl
    · intro h
      simp at h

/-- Concrete fixture version string used by the witnesses below. -/
def V0 : Str := "0.31.8".toList

/-- A fixture artifact text that contains the three critical patterns (and
nothing else the rule table matches). -/
def sampleGood : Str :=
  "safeRegister = async () => \x7b\nconst required = require(`$\x7bconfigPath\x7d`);\nconst i0 = require(`$\x7bpath0\x7d`);\n".toList

/-- A fixture artifact text where a critical pattern (`safeRegister`) is
absent. -/
def sampleBad : Str := "const required = require(`$\x7ba\x7d`);\n".toList

/-- The buffer the pipeline produces for `sampleGood`. -/
def sampleGoodOut : Str := (runRules (insertMarker sampleGood) RULES).1

/-- C1: commit-gate atomicity.  A run with a failed critical rule writes
nothing and exits 1; a run (on an unmarked artifact) where every critical
rule applied commits the full pipeline buffer in one write and exits 0,
regardless of optional-rule failures. -/
theorem commit_gate (v c : Str) :
    ((∃ r ∈ (patchDrizzleKit v c).results, r.success = false ∧
        criticalPatches.contains r.name = true) →
      diskAfter v c = c ∧ (patchDrizzleKit v c).exitCode = 1) ∧
    (containsB PATCH_MARKER c = false →
      (∀ r ∈ (patchDrizzleKit v c).results,
        criticalPatches.contains r.name = true → r.success = true) →
      (patchDrizzleKit v c).outcome =
        RunOutcome.committed (runRules (insertMarker c) RULES).1 ∧
      (patchDrizzleKit v c).exitCode = 0) := by
  constructor
  · intro hex
    by_cases hm : containsB PATCH_MARKER c = true
    · exfalso
      obtain ⟨r, hr, -⟩ := hex
      rw [show patchDrizzleKit v c =
          ⟨versionWarned v, false, [], RunOutcome.alreadyPatched, 0⟩ from by
        simp [patchDrizzleKit, hm]] at hr
      simp at hr
    · have hm' : containsB PATCH_MARKER c = false := by
        simpa using hm
      have h1 : (patchDrizzleKit v c).exitCode = 1 := by
        rw [gate_iff v c hm']
        exact hex
      exact ⟨exit_one_no_write v c h1, h1⟩
  · intro hm hall
    have h0 : ¬ (patchDrizzleKit v c).exitCode = 1 := by
      rw [gate_iff v c hm]
      rintro ⟨r, hr, hs, hcrit⟩
      rw [hall r hr hcrit] at hs
      exact Bool.true_eq_false.mp hs
    unfold patchDrizzleKit at h0 ⊢
    rw [hm] at h0 ⊢
    simp only [Bool.false_eq_true, if_false] at h0 ⊢
    split at h0
    · simp at h0
    · rename_i hf
      rw [if_neg hf]
      exact ⟨rfl, rfl⟩

/-- C1 witness: the failing branch at `sampleBad` (critical `safeRegister`
missing) and the committing branch at `sampleGood`. -/
theorem commit_gate_witness :
    (diskAfter V0 sampleBad = sampleBad ∧
      (patchDrizzleKit V0 sampleBad).exitCode = 1) ∧
    ((patchDrizzleKit V0 sampleGood).outcome =
        RunOutcome.committed (runRules (insertMarker sampleGood) RULES).1 ∧
      (patchDrizzleKit V0 sampleGood).exitCode = 0) :=
  ⟨(commit_gate V0 sampleBad).1 (by decide),
   (commit_gate V0 sampleGood).2 (by decide) (by decide)⟩

/-- C2: an artifact already carrying the current marker is a committed
no-op: already-patched report, zero rules attempted, no write, exit 0. -/
theorem marker_noop (v c : Str) (h : containsB PATCH_MARKER c = true) :
    patchDrizzleKit v c =
      ⟨versionWarned v, false, [], RunOutcome.alreadyPatched, 0⟩ ∧
    (patchDrizzleKit v c).results = [] ∧
    diskAfter v c = c ∧
    (patchDrizzleKit v c).exitCode = 0 := by
  have h1 : patchDrizzleKit v c =
      ⟨versionWarned v, false, [], RunOutcome.alreadyPatched, 0⟩ := by
    simp [patchDrizzleKit, h]
  refine ⟨h1, by rw [h1], ?_, by rw [h1]⟩
  unfold diskAfter
  rw [h1]

/-- C2 witness at an artifact that is exactly the marker string. -/
theorem marker_noop_witness :
    patchDrizzleKit V0 PATCH_MARKER =
      ⟨versionWarned V0, false, [], RunOutcome.alreadyPatched, 0⟩ ∧
    (patchDrizzleKit V0 PATCH_MARKER).results = [] ∧
    diskAfter V0 PATCH_MARKER = PATCH_MARKER ∧
    (patchDrizzleKit V0 PATCH_MARKER).exitCode = 0 :=
  marker_noop V0 PATCH_MARKER (by decide)

/-- C3: the `applyPatch` trichotomy.  No match records `Pattern not found`
and returns the input; a match whose global replace is the identity records
the distinct `Replacement had no effect` and returns the input; otherwise
the rule is applied and the replaced text is carried forward. -/
theorem applyPatch_trichotomy (content name : Str) (pat : Rexp) :
    notFoundErr ≠ noEffectErr ∧
    (pat.test content = false →
      applyPatch content name pat = (content, ⟨name, false, some notFoundErr⟩)) ∧
    (pat.test content = true → pat.replaceAll content = content →
      applyPatch content name pat = (content, ⟨name, false, some noEffectErr⟩)) ∧
    (pat.test content = true → pat.replaceAll content ≠ content →
      applyPatch content name pat =
        (pat.replaceAll content, ⟨name, true, none⟩)) := by
  refine ⟨by decide, ?_, ?_, ?_⟩
  · intro h
    simp [applyPatch, h]
  · intro h1 h2
    simp [applyPatch, h1, h2]
  · intro h1 h2
    simp [applyPatch, h1, h2]

/-- C3 witness: the not-found branch of the `walkForTsConfig` rule on a
three-character buffer, and the applied branch of the same rule on a buffer
containing its pattern. -/
theorem applyPatch_trichotomy_witness :
    applyPatch "xyz".toList "walkForTsConfig".toList (mkG matchWalk) =
      ("xyz".toList, ⟨"walkForTsConfig".toList, false, some notFoundErr⟩) ∧
    applyPatch "function walkForTsConfig(directory, x) \x7b".toList
        "walkForTsConfig".toList (mkG matchWalk) =
      (WALK_REPL, ⟨"walkForTsConfig".toList, true, none⟩) :=
  ⟨(applyPatch_trichotomy "xyz".toList "walkForTsConfig".toList
      (mkG matchWalk)).2.1 (by decide),
   by
    have := (applyPatch_trichotomy
      "function walkForTsConfig(directory, x) \x7b".toList
      "walkForTsConfig".toList (mkG matchWalk)).2.2.2 (by decide) (by decide)
    rw [this]
    decide⟩

/-- C6: the pipeline is not fail-fast.  On any unmarked artifact it
produces one result per rule of the table, in declared order, each rule
consuming the previous rule's buffer; only the commit gate after all rules
turns accumulated critical failures into the run-level failure. -/
theorem pipeline_non_fail_fast (v c : Str)
    (h : containsB PATCH_MARKER c = false) :
    ((patchDrizzleKit v c).results).map PatchResult.name = RULES.map Rule.name ∧
    (∀ content r rs, runRules content (r :: rs) =
      ((runRules (applyPatch content r.name r.pat).1 rs).1,
       (applyPatch content r.name r.pat).2 ::
         (runRules (applyPatch content r.name r.pat).1 rs).2)) ∧
    ((patchDrizzleKit v c).exitCode = 1 ↔
      ∃ r ∈ (patchDrizzleKit v c).results, r.success = false ∧
        criticalPatches.contains r.name = true) := by
  refine ⟨?_, fun content r rs => rfl, gate_iff v c h⟩
  rw [patchDrizzleKit_results v c h]
  exact runRules_names _ _

/-- C6 witness at `sampleGood`. -/
theorem pipeline_non_fail_fast_witness :
    ((patchDrizzleKit V0 sampleGood).results).map PatchResult.name =
      RULES.map Rule.name ∧
    (∀ content r rs, runRules content (r :: rs) =
      ((runRules (applyPatch content r.name r.pat).1 rs).1,
       (applyPatch content r.name r.pat).2 ::
         (runRules (applyPatch content r.name r.pat).1 rs).2)) ∧
    ((patchDrizzleKit V0 sampleGood).exitCode = 1 ↔
      ∃ r ∈ (patchDrizzleKit V0 sampleGood).results, r.success = false ∧
        criticalPatches.contains r.name = true) :=
  pipeline_non_fail_fast V0 sampleGood (by decide)

theorem patchDrizzleKit_warned (v c : Str) :
    (patchDrizzleKit v c).warnedUnsupported = versionWarned v := by
  unfold patchDrizzleKit
  split
  · rfl
  · split <;> rfl

/-- The version string feeds only the warning flag: outcome, exit code and
results are the same for every version. -/
theorem patchDrizzleKit_version_indep (v1 v2 c : Str) :
    (patchDrizzleKit v1 c).outcome = (patchDrizzleKit v2 c).outcome ∧
    (patchDrizzleKit v1 c).exitCode = (patchDrizzleKit v2 c).exitCode ∧
    (patchDrizzleKit v1 c).results = (patchDrizzleKit v2 c).results := by
  refine ⟨?_, ?_, ?_⟩
  all_goals
    unfold patchDrizzleKit
    split
    · rfl
    · split <;> rfl

/-- C8 counterexample: `unknown` is an extracted version string (the
no-match fallback of `extractVersion`) that is not in the allow-list, yet a
run with it emits no warning — the `version !== "unknown"` carve-out at
line 100 — while the run still proceeds (exit 0 here). -/
theorem version_gate_cex :
    extractVersion "node_modules/drizzle-kit/bin.cjs".toList =
      "unknown".toList ∧
    SUPPORTED_VERSIONS.contains "unknown".toList = false ∧
    (patchDrizzleKit "unknown".toList sampleGood).warnedUnsupported = false ∧
    (patchDrizzleKit "unknown".toList sampleGood).exitCode = 0 := by
  refine ⟨by decide, by decide, by decide, by decide⟩

/-- C8 (amended): the version gate is never fatal.  An extracted version
outside the allow-list and different from `unknown` sets the warning flag;
the extracted version `unknown` — also outside the allow-list — sets no
warning (the line-100 carve-out); and in every case the version string
changes nothing else: outcome, exit code and per-rule results are
identical across all versions. -/
theorem version_gate_never_fatal (v c : Str)
    (h1 : SUPPORTED_VERSIONS.contains v = false)
    (h2 : (v == "unknown".toList) = false) :
    (patchDrizzleKit v c).warnedUnsupported = true ∧
    (patchDrizzleKit "unknown".toList c).warnedUnsupported = false ∧
    (patchDrizzleKit v c).outcome = (patchDrizzleKit V0 c).outcome ∧
    (patchDrizzleKit v c).exitCode = (patchDrizzleKit V0 c).exitCode ∧
    (patchDrizzleKit v c).results = (patchDrizzleKit V0 c).results ∧
    (∀ v1 v2,
      (patchDrizzleKit v1 c).outcome = (patchDrizzleKit v2 c).outcome ∧
      (patchDrizzleKit v1 c).exitCode = (patchDrizzleKit v2 c).exitCode) := by
  refine ⟨?_, ?_, (patchDrizzleKit_version_indep v V0 c).1,
    (patchDrizzleKit_version_indep v V0 c).2.1,
    (patchDrizzleKit_version_indep v V0 c).2.2,
    fun v1 v2 => ⟨(patchDrizzleKit_version_indep v1 v2 c).1,
      (patchDrizzleKit_version_indep v1 v2 c).2.1⟩⟩
  · rw [patchDrizzleKit_warned]
    simp only [versionWarned, h1, h2, Bool.not_false, Bool.and_self]
  · rw [patchDrizzleKit_warned]
    decide

/-- C8 witness at the untested version `9.9.9` on `sampleGood`. -/
theorem version_gate_never_fatal_witness :
    (patchDrizzleKit "9.9.9".toList sampleGood).warnedUnsupported = true ∧
    (patchDrizzleKit "unknown".toList sampleGood).warnedUnsupported = false ∧
    (patchDrizzleKit "9.9.9".toList sampleGood).outcome =
      (patchDrizzleKit V0 sampleGood).outcome ∧
    (patchDrizzleKit "9.9.9".toList sampleGood).exitCode =
      (patchDrizzleKit V0 sampleGood).exitCode ∧
    (patchDrizzleKit "9.9.9".toList sampleGood).results =
      (patchDrizzleKit V0 sampleGood).results ∧
    (∀ v1 v2,
      (patchDrizzleKit v1 sampleGood).outcome =
        (patchDrizzleKit v2 sampleGood).outcome ∧
      (patchDrizzleKit v1 sampleGood).exitCode =
        (patchDrizzleKit v2 sampleGood).exitCode) :=
  version_gate_never_fatal "9.9.9".toList sampleGood (by decide) (by decide)

/-- C10: the critical set is exactly the three named rules; rules outside it
(including `walkForTsConfig` and `recusivelyResolveSync`) never cause the
non-zero outcome, while a failure of any of the three always gives exit 1
with no write. -/
theorem critical_set (v c : Str) (h : containsB PATCH_MARKER c = false) :
    criticalPatches = ["safeRegister (disable esbuild)".toList,
      "config loading (require → import)".toList,
      "schema loading (require → import)".toList] ∧
    criticalPatches.contains "walkForTsConfig".toList = false ∧
    criticalPatches.contains "recusivelyResolveSync".toList = false ∧
    ((patchDrizzleKit v c).exitCode = 1 ↔
      ∃ r ∈ (patchDrizzleKit v c).results, r.success = false ∧
        criticalPatches.contains r.name = true) ∧
    ((patchDrizzleKit v c).exitCode = 1 → diskAfter v c = c) :=
  ⟨rfl, by decide, by decide, gate_iff v c h, exit_one_no_write v c⟩

/-- C10 witness at `sampleGood`, where `walkForTsConfig` fails yet the run
commits with exit 0. -/
theorem critical_set_witness :
    criticalPatches = ["safeRegister (disable esbuild)".toList,
      "config loading (require → import)".toList,
      "schema loading (require → import)".toList] ∧
    criticalPatches.contains "walkForTsConfig".toList = false ∧
    criticalPatches.contains "recusivelyResolveSync".toList = false ∧
    ((patchDrizzleKit V0 sampleGood).exitCode = 1 ↔
      ∃ r ∈ (patchDrizzleKit V0 sampleGood).results, r.success = false ∧
        criticalPatches.contains r.name = true) ∧
    ((patchDrizzleKit V0 sampleGood).exitCode = 1 →
      diskAfter V0 sampleGood = sampleGood) :=
  critical_set V0 sampleGood (by decide)

/-- Shared core of the amended C4 and C5: a committed run on a non-shebang
artifact produces output that still contains the marker, because the
inserted marker line is never touched by any rule of the table. -/
theorem committed_nonshebang_marker (v c out : Str)
    (h : isPref "#!".toList c = false)
    (hout : (patchDrizzleKit v c).outcome = RunOutcome.committed out) :
    containsB PATCH_MARKER out = true := by
  have hm : containsB PATCH_MARKER c = false := by
    by_contra hm
    simp only [Bool.not_eq_false] at hm
    rw [patchDrizzleKit_eq_noop v c hm] at hout
    simp at hout
  have hcommit : out = (runRules (insertMarker c) RULES).1 := by
    by_cases hf : ((runRules (insertMarker c) RULES).2.filter
        (fun r => !r.success && criticalPatches.contains r.name)).length > 0
    · rw [patchDrizzleKit_eq_abort v c hm hf] at hout
      simp at hout
    · rw [patchDrizzleKit_eq_commit v c hm hf] at hout
      have hout2 : RunOutcome.committed (runRules (insertMarker c) RULES).1 =
          RunOutcome.committed out := hout
      exact (RunOutcome.committed.inj hout2).symm
  have hins : insertMarker c = MARKER_NL ++ c := by
    unfold insertMarker
    rw [h]
    simp
  obtain ⟨y, hy⟩ := runRules_keeps_marker keepsMarker_all c
  rw [hins] at hcommit
  have hpref : isPref PATCH_MARKER out = true := by
    rw [hcommit, hy]
    have hsplit : MARKER_NL ++ y = PATCH_MARKER ++ ('\n' :: y) := by
      simp [MARKER_NL]
    rw [hsplit]
    exact isPref_self_append _ _
  exact containsB_of_isPref hpref

/-- C4 (amended): on an artifact whose content does not start with `#!`, a
committed first run leaves the marker in the output, so a second run is the
already-patched no-op and the content stays identical. -/
theorem idempotence_amended (v c : Str)
    (h : isPref "#!".toList c = false) :
    ∀ out, (patchDrizzleKit v c).outcome = RunOutcome.committed out →
      containsB PATCH_MARKER out = true ∧
      (patchDrizzleKit v out).outcome = RunOutcome.alreadyPatched ∧
      diskAfter v out = out := by
  intro out hout
  have hcont : containsB PATCH_MARKER out = true :=
    committed_nonshebang_marker v c out h hout
  refine ⟨hcont, ?_, ?_⟩
  · rw [patchDrizzleKit_eq_noop v out hcont]
  · unfold diskAfter
    rw [patchDrizzleKit_eq_noop v out hcont]

/-- C4 witness: the committed output for `sampleGood` carries the marker and
a second run on it is the already-patched no-op. -/
theorem idempotence_amended_witness :
    containsB PATCH_MARKER sampleGoodOut = true ∧
    (patchDrizzleKit V0 sampleGoodOut).outcome = RunOutcome.alreadyPatched ∧
    diskAfter V0 sampleGoodOut = sampleGoodOut :=
  idempotence_amended V0 sampleGood (by decide) sampleGoodOut (by decide)

/-- An artifact whose `#!` first line ends in a fragment of the
`_supportsColor` pattern, so that the pattern's `[^}]*` wildcard swallows
the freshly inserted marker line; the three critical patterns follow, so
the run still commits. -/
def cexShebang : Str :=
  "#!x function _supportsColor(haveStream, \x7b\n\x7d = \x7b\x7d) \x7b\nsafeRegister = async () => \x7b\nconst required = require(`$\x7ba\x7d`);\nconst i0 = require(`$\x7bb\x7d`);\n".toList

/-- The buffer the pipeline produces for `cexShebang`. -/
def cexShebangOut : Str := (runRules (insertMarker cexShebang) RULES).1

/-- C4 counterexample: on `cexShebang` the first run commits with exit 0,
yet the committed content does not contain the current-version marker, and
the second run is not an already-patched no-op — it aborts with exit 1. -/
theorem idempotence_cex :
    (patchDrizzleKit V0 cexShebang).outcome = RunOutcome.committed cexShebangOut ∧
    (patchDrizzleKit V0 cexShebang).exitCode = 0 ∧
    containsB PATCH_MARKER cexShebangOut = false ∧
    (patchDrizzleKit V0 cexShebangOut).outcome = RunOutcome.abortedCritical := by
  refine ⟨by decide, by decide, by decide, by decide⟩

theorem countOcc_markerNl_append {x : Str}
    (h : containsB PATCH_MARKER x = false) :
    countOcc PATCH_MARKER (MARKER_NL ++ x) = 1 := by
  have h0 : isPref PATCH_MARKER (MARKER_NL ++ x) = true := by
    have hsplit : MARKER_NL ++ x = PATCH_MARKER ++ ('\n' :: x) := by
      simp [MARKER_NL]
    rw [hsplit]
    exact isPref_self_append _ _
  have hT : countOcc PATCH_MARKER (MARKER_NL.drop 1 ++ x) =
      countOcc PATCH_MARKER x :=
    countOcc_append_of_clash (by decide) x
  have hx : countOcc PATCH_MARKER x = 0 := countOcc_zero_of_not_contains h
  have hcons : MARKER_NL ++ x = '/' :: (MARKER_NL.drop 1 ++ x) := rfl
  have hstep : countOcc PATCH_MARKER ('/' :: (MARKER_NL.drop 1 ++ x)) =
      (if isPref PATCH_MARKER ('/' :: (MARKER_NL.drop 1 ++ x)) then 1 else 0) +
        countOcc PATCH_MARKER (MARKER_NL.drop 1 ++ x) := rfl
  rw [hcons, hstep, hT, hx]
  rw [show isPref PATCH_MARKER ('/' :: (MARKER_NL.drop 1 ++ x)) = true from
    hcons ▸ h0]
  simp

/-- C5 (amended): the marker is inserted before any rule runs — after the
first newline when the content starts with `#!` and has a newline, and at
the very start otherwise (including a `#!` content with no newline at all);
immediately after insertion the buffer contains the marker exactly once;
and for a committed run on content not starting with `#!` the committed
output still contains the marker. -/
theorem marker_insertion_amended (v c : Str)
    (h1 : containsB PATCH_MARKER c = false) :
    countOcc PATCH_MARKER (insertMarker c) = 1 ∧
    (isPref "#!".toList c = false → insertMarker c = MARKER_NL ++ c) ∧
    (∀ k, isPref "#!".toList c = true → firstNl c = some k →
      insertMarker c = c.take (k + 1) ++ MARKER_NL ++ c.drop (k + 1)) ∧
    (isPref "#!".toList c = true → firstNl c = none →
      insertMarker c = MARKER_NL ++ c) ∧
    (isPref "#!".toList c = false → ∀ out,
      (patchDrizzleKit v c).outcome = RunOutcome.committed out →
      containsB PATCH_MARKER out = true) := by
  refine ⟨?_, fun h => insertMarker_no_shebang h,
    fun k hsh hfn => insertMarker_shebang_some hsh hfn,
    fun hsh hfn => insertMarker_shebang_none hsh hfn,
    fun h out hout => committed_nonshebang_marker v c out h hout⟩
  by_cases hsh : isPref "#!".toList c = true
  · cases hfn : firstNl c with
    | none =>
      rw [insertMarker_shebang_none hsh hfn]
      exact countOcc_markerNl_append h1
    | some k =>
      obtain ⟨hk, hnl⟩ := firstNl_spec hfn
      rw [insertMarker_shebang_some hsh hfn, List.append_assoc]
      rw [countOcc_append_of_none
        (fun i hi => no_occurrence_in_take (by decide) h1 hk hnl i
          (by rw [List.length_take] at hi; omega) _)]
      exact countOcc_markerNl_append (containsB_false_drop h1 (k + 1))
  · rw [insertMarker_no_shebang (by simpa using hsh)]
    exact countOcc_markerNl_append h1

/-- C5 witness at `sampleGood` (no shebang, marker absent): insertion is at
the buffer start, the inserted buffer holds the marker exactly once, and
the committed output contains the marker. -/
theorem marker_insertion_amended_witness :
    countOcc PATCH_MARKER (insertMarker sampleGood) = 1 ∧
    insertMarker sampleGood = MARKER_NL ++ sampleGood ∧
    containsB PATCH_MARKER sampleGoodOut = true :=
  ⟨(marker_insertion_amended V0 sampleGood (by decide)).1,
   (marker_insertion_amended V0 sampleGood (by decide)).2.1 (by decide),
   (marker_insertion_amended V0 sampleGood (by decide)).2.2.2.2 (by decide)
     sampleGoodOut (by decide)⟩

/-- A content that starts with `#!` but contains no newline. -/
def shebangNoNl : Str := "#!abc".toList

/-- C5 counterexample: for a `#!` content with no newline the marker is
inserted at the very start (before the shebang), not after the shebang
line; and on `cexShebang` a committed run's output contains the marker zero
times, not exactly once. -/
theorem marker_insertion_cex :
    (isPref "#!".toList shebangNoNl = true ∧
      insertMarker shebangNoNl = PATCH_MARKER ++ '\n' :: shebangNoNl ∧
      isPref PATCH_MARKER (insertMarker shebangNoNl) = true) ∧
    ((patchDrizzleKit V0 cexShebang).outcome = RunOutcome.committed cexShebangOut ∧
      countOcc PATCH_MARKER cexShebangOut = 0) := by
  refine ⟨⟨by decide, by decide, by decide⟩, by decide, by decide⟩

/-- A path in which the version segment is followed by one more digit. -/
def badPath : Str := "node_modules/drizzle-kit@0.31.89/bin.cjs".toList

/-- C7 counterexample: `badPath` contains the segment `drizzle-kit@0.31.8`,
but the extracted version is `0.31.89`, not `0.31.8`. -/
theorem version_extraction_cex :
    containsB "drizzle-kit@0.31.8".toList badPath = true ∧
    extractVersion badPath = "0.31.89".toList ∧
    ¬ extractVersion badPath = "0.31.8".toList := by
  refine ⟨by decide, by decide, by decide⟩

/-- The canonical version segment of the scenario. -/
def SEG8 : Str := "drizzle-kit@0.31.8".toList

theorem matchVer_eq (x : Str) :
    matchVer (VER_LIT ++ x) =
      (let d1 := x.takeWhile isDig
       if d1.length == 0 then none
       else match x.drop d1.length with
       | '.' :: s2 =>
         (let d2 := s2.takeWhile isDig
          if d2.length == 0 then none
          else match s2.drop d2.length with
          | '.' :: s3 =>
            (let d3 := s3.takeWhile isDig
             if d3.length == 0 then none
             else some (d1 ++ ['.'] ++ d2 ++ ['.'] ++ d3))
          | _ => none)
       | _ => none) := by
  unfold matchVer
  rw [dropLit_append]

/-- The version matcher at the canonical segment captures `0.31.8` whenever
the following text does not begin with a digit. -/
theorem matchVer_seg8 {b : Str} (hb : b.takeWhile isDig = []) :
    matchVer (SEG8 ++ b) = some "0.31.8".toList := by
  have e1 : ("0.31.8".toList ++ b).takeWhile isDig = ['0'] := by
    rw [takeWhile_append_of_ne (by decide) b]
    decide
  have e3 : ("31.8".toList ++ b).takeWhile isDig = ['3', '1'] := by
    rw [takeWhile_append_of_ne (by decide) b]
    decide
  have e5 : (['8'] ++ b).takeWhile isDig = ['8'] := by
    rw [show (['8'] ++ b) = '8' :: b from rfl]
    rw [List.takeWhile_cons]
    rw [show isDig '8' = true from rfl]
    simp [hb]
  rw [show SEG8 ++ b = VER_LIT ++ ("0.31.8".toList ++ b) from rfl, matchVer_eq]
  simp only [e1]
  rw [show ("0.31.8".toList ++ b).drop (['0'].length) =
    '.' :: ("31.8".toList ++ b) from rfl]
  simp only [e3]
  rw [show ("31.8".toList ++ b).drop (['3', '1'].length) =
    '.' :: (['8'] ++ b) from rfl]
  simp only [e5]
  rfl

theorem findVer_append_of_none {a x : Str}
    (h : ∀ i, i < a.length → matchVer (a.drop i ++ x) = none) :
    findVer (a ++ x) = findVer x := by
  induction a with
  | nil => rfl
  | cons c cs ih =>
    have h0 : matchVer (c :: (cs ++ x)) = none := by simpa using h 0 (by simp)
    have hrec := ih (fun i hi => by simpa using h (i + 1) (by simpa using hi))
    rw [List.cons_append]
    simp only [findVer, h0]
    exact hrec

theorem findVer_of_match {s v : Str} (h : matchVer s = some v) :
    findVer s = some v := by
  cases s with
  | nil => simpa [findVer] using h
  | cons c cs => simp [findVer, h]

/-- C7 (amended): for a path of the form `A ++ drizzle-kit@0.31.8 ++ B`
where the version pattern matches at no position inside `A` and `B` does
not begin with a digit, the extracted version is exactly `0.31.8`; a path
the version pattern does not match at all yields `unknown`; and the version
string never changes the run's outcome or exit code. -/
theorem version_extraction_amended (a b : Str)
    (ha : ∀ i, i < a.length → matchVer (a.drop i ++ (SEG8 ++ b)) = none)
    (hb : b.takeWhile isDig = []) :
    extractVersion (a ++ (SEG8 ++ b)) = "0.31.8".toList ∧
    (∀ path, findVer path = none → extractVersion path = "unknown".toList) ∧
    (∀ v1 v2 c, (patchDrizzleKit v1 c).outcome = (patchDrizzleKit v2 c).outcome ∧
      (patchDrizzleKit v1 c).exitCode = (patchDrizzleKit v2 c).exitCode) := by
  refine ⟨?_, fun path h => by simp [extractVersion, h],
    fun v1 v2 c => ⟨(patchDrizzleKit_version_indep v1 v2 c).1,
      (patchDrizzleKit_version_indep v1 v2 c).2.1⟩⟩
  unfold extractVersion
  rw [findVer_append_of_none ha, findVer_of_match (matchVer_seg8 hb)]

/-- C7 witness at the canonical discovered path shape. -/
theorem version_extraction_amended_witness :
    extractVersion ("node_modules/.deno/".toList ++
      (SEG8 ++ "/bin.cjs".toList)) = "0.31.8".toList ∧
    (∀ path, findVer path = none → extractVersion path = "unknown".toList) ∧
    (∀ v1 v2 c, (patchDrizzleKit v1 c).outcome = (patchDrizzleKit v2 c).outcome ∧
      (patchDrizzleKit v1 c).exitCode = (patchDrizzleKit v2 c).exitCode) :=
  version_extraction_amended "node_modules/.deno/".toList "/bin.cjs".toList
    (by decide) (by decide)

/-- The literal signature named by the walkForTsConfig end-to-end scenario. -/
def WALK_SIG : Str := "function walkForTsConfig(directory, x) \x7b".toList

/-- The tail of the walkForTsConfig replacement after its rewritten
signature line. -/
def WALK_E : Str := WALK_REPL.drop 50

/-- The patched fragment: the rewritten signature immediately followed by
the `return void 0;` line. -/
def WALK_FRAG : Str :=
  "function walkForTsConfig(directory, readdirSync) \x7b\n  return void 0;".toList

theorem matchWalk_eq (x : Str) :
    matchWalk (WALK_LIT ++ x) =
      (match x.dropWhile (fun c => !(c == ')')) with
      | ')' :: s2 =>
        (match s2.dropWhile isWs with
        | '\x7b' :: s3 => some ((WALK_LIT ++ x).length - s3.length, WALK_REPL)
        | _ => none)
      | _ => none) := by
  unfold matchWalk
  rw [dropLit_append]

/-- The walkForTsConfig matcher fires on the literal signature, consuming
exactly the signature. -/
theorem matchWalk_sig (t : Str) :
    matchWalk (WALK_SIG ++ t) = some (40, WALK_REPL) := by
  have e3 : (", x) \x7b".toList ++ t).dropWhile (fun c => !(c == ')')) =
      ')' :: (" \x7b".toList ++ t) := by
    rw [dropWhile_append_of_ne (by decide) t]
    rfl
  have e4 : (" \x7b".toList ++ t).dropWhile isWs = '\x7b' :: t := by
    rw [dropWhile_append_of_ne (by decide) t]
    rfl
  rw [show WALK_SIG ++ t = WALK_LIT ++ (", x) \x7b".toList ++ t) from rfl]
  rw [matchWalk_eq]
  simp only [e3, e4]
  have hlen : (WALK_LIT ++ (", x) \x7b".toList ++ t)).length - t.length = 40 := by
    simp [List.length_append, WALK_LIT]
    omega
  rw [hlen]

/-- On text beginning with its own replacement, the walkForTsConfig matcher
consumes exactly the 50-character rewritten signature line. -/
theorem matchWalk_repl (t : Str) :
    matchWalk (WALK_REPL ++ t) = some (50, WALK_REPL) := by
  have e3 : (WALK_REPL.drop 34 ++ t).dropWhile (fun c => !(c == ')')) =
      ')' :: (WALK_REPL.drop 48 ++ t) := by
    rw [dropWhile_append_of_ne (by decide) t]
    rfl
  have e4 : (WALK_REPL.drop 48 ++ t).dropWhile isWs = '\x7b' :: (WALK_E ++ t) := by
    rw [dropWhile_append_of_ne (by decide) t]
    rfl
  rw [show WALK_REPL ++ t = WALK_LIT ++ (WALK_REPL.drop 34 ++ t) from rfl]
  rw [matchWalk_eq]
  simp only [e3, e4]
  have hlen : (WALK_LIT ++ (WALK_REPL.drop 34 ++ t)).length -
      (WALK_E ++ t).length = 50 := by
    simp [List.length_append, WALK_LIT, WALK_REPL, WALK_E]
  rw [hlen]

/-- Every successful walkForTsConfig match produces the fixed replacement. -/
theorem matchWalk_rep (s : Str) :
    ∀ lr : Nat × Str, matchWalk s = some lr → lr.2 = WALK_REPL := by
  intro lr h
  unfold matchWalk at h
  split at h
  · exact absurd h (by simp)
  · split at h
    · split at h
      · cases h
        rfl
      · exact absurd h (by simp)
    · exact absurd h (by simp)

/-- The walkForTsConfig matcher never fires inside the replacement tail. -/
theorem scanRepl_walkE (x : Str) :
    scanRepl matchWalk (WALK_E ++ x) = WALK_E ++ scanRepl matchWalk x :=
  scanRepl_append_of_clash (fun _ h => matchWalk_none h) (by decide) x

/-- No text is a fixed point of prepending the replacement tail to its own
walkForTsConfig rewrite (the infinite-descent core of the no-effect
impossibility). -/
theorem walk_no_fix : ∀ t : Str, ¬ (WALK_E ++ scanRepl matchWalk t = t) := by
  have key : ∀ n, ∀ t : Str, t.length ≤ n →
      ¬ (WALK_E ++ scanRepl matchWalk t = t) := by
    intro n
    induction n with
    | zero =>
      intro t ht heq
      have hlen := congrArg List.length heq
      rw [List.length_append] at hlen
      have hE : WALK_E.length = 47 := rfl
      omega
    | succ n ih =>
      intro t ht heq
      have hlen := congrArg List.length heq
      rw [List.length_append] at hlen
      have hE : WALK_E.length = 47 := rfl
      have h2 : scanRepl matchWalk t =
          WALK_E ++ scanRepl matchWalk (scanRepl matchWalk t) := by
        conv_lhs => rw [← heq]
        rw [scanRepl_walkE]
      exact ih (scanRepl matchWalk t) (by omega) h2.symm
  intro t
  exact key t.length t le_rfl

/-- A buffer with a walkForTsConfig match is always changed by the global
replace: the rule can never report `Replacement had no effect`. -/
theorem scanRepl_walk_ne : ∀ {s : Str}, hasMatch matchWalk s = true →
    scanRepl matchWalk s ≠ s := by
  intro s
  induction s with
  | nil =>
    intro h
    simp only [hasMatch] at h
    rw [show matchWalk [] = none from rfl] at h
    simp at h
  | cons c cs ih =>
    intro h heq
    cases hm : matchWalk (c :: cs) with
    | none =>
      rw [scanRepl_cons_none hm] at heq
      have h2 : scanRepl matchWalk cs = cs := by
        injection heq
      have h3 : hasMatch matchWalk cs = true := by
        simp only [hasMatch, hm, Option.isSome_none, Bool.false_or] at h
        exact h
      exact ih h3 h2
    | some lr =>
      obtain ⟨len, rep⟩ := lr
      have hrep : rep = WALK_REPL := matchWalk_rep _ _ hm
      subst hrep
      rw [scanRepl_cons_some hm] at heq
      have hpref : isPref WALK_REPL (c :: cs) = true :=
        (isPref_iff_exists _ _).mpr ⟨_, heq.symm⟩
      obtain ⟨tail, htail⟩ := (isPref_iff_exists _ _).mp hpref
      have hm50 : matchWalk (c :: cs) = some (50, WALK_REPL) := by
        rw [htail]
        exact matchWalk_repl tail
      rw [hm] at hm50
      have hlen50 : len = 50 := by
        cases hm50
        rfl
      subst hlen50
      rw [htail] at heq
      have hdrop : List.drop (max 50 1) (WALK_REPL ++ tail) = WALK_E ++ tail := by
        rw [show (max 50 1) = 50 from rfl]
        rw [List.drop_append_of_le_length (by decide)]
        rfl
      rw [hdrop, scanRepl_walkE] at heq
      have hcancel : WALK_E ++ scanRepl matchWalk tail = tail :=
        List.append_cancel_left heq
      exact walk_no_fix tail hcancel

/-- The global replace output contains the fixed replacement whenever a
match exists. -/
theorem containsB_scanRepl {m : Matcher} {R : Str} (hnil : m [] = none)
    (hrep : ∀ s, ∀ lr : Nat × Str, m s = some lr → lr.2 = R) :
    ∀ {s : Str}, hasMatch m s = true → containsB R (scanRepl m s) = true := by
  intro s
  induction s with
  | nil =>
    intro h
    simp [hasMatch, hnil] at h
  | cons c cs ih =>
    intro h
    cases hm : m (c :: cs) with
    | none =>
      rw [scanRepl_cons_none hm]
      apply containsB_cons_of
      apply ih
      simpa [hasMatch, hm] using h
    | some lr =>
      obtain ⟨len, rep⟩ := lr
      have hR : rep = R := hrep _ _ hm
      rw [scanRepl_cons_some hm, hR]
      exact containsB_of_isPref (isPref_self_append R _)

theorem containsB_of_sub {q p s : Str} (hq : isPref q p = true)
    (h : containsB p s = true) : containsB q s = true := by
  obtain ⟨i, hi⟩ := (containsB_iff_drop p s).mp h
  exact containsB_of_drop i (isPref_trans hq hi)

/-- The first rule of the pipeline is the walkForTsConfig rule, so the head
of the run report is its result. -/
theorem patchDrizzleKit_head (v c : Str)
    (h2 : containsB PATCH_MARKER c = false) :
    (patchDrizzleKit v c).results.head? =
      some (applyPatch (insertMarker c) "walkForTsConfig".toList
        (mkG matchWalk)).2 := by
  rw [patchDrizzleKit_results v c h2]
  rfl

theorem applyPatch_walk {s1 : Str} (htest : hasMatch matchWalk s1 = true)
    (hne : scanRepl matchWalk s1 ≠ s1) :
    (applyPatch s1 "walkForTsConfig".toList (mkG matchWalk)).2 =
      ⟨"walkForTsConfig".toList, true, none⟩ ∧
    (applyPatch s1 "walkForTsConfig".toList (mkG matchWalk)).1 =
      scanRepl matchWalk s1 := by
  unfold applyPatch mkG
  simp [htest, hne]

/-- C9 (amended): for every unmarked artifact containing the literal
signature, the walkForTsConfig rule — attempted first — is reported as
applied, and the buffer it hands to the next rule contains the rewritten
signature immediately followed by `return void 0;`.  (The committed output
may lose the fragment again when a later rule's wildcard overlaps it, as
the counterexample shows.) -/
theorem walk_e2e_amended (v c : Str)
    (h1 : containsB WALK_SIG c = true)
    (h2 : containsB PATCH_MARKER c = false) :
    (patchDrizzleKit v c).results.head? =
      some ⟨"walkForTsConfig".toList, true, none⟩ ∧
    containsB WALK_FRAG
      ((applyPatch (insertMarker c) "walkForTsConfig".toList
        (mkG matchWalk)).1) = true := by
  have hins : containsB WALK_SIG (insertMarker c) = true :=
    containsB_insertMarker (by decide) h1
  obtain ⟨i, hi⟩ := (containsB_iff_drop _ _).mp hins
  obtain ⟨t, ht⟩ := (isPref_iff_exists _ _).mp hi
  have hmatch : matchWalk ((insertMarker c).drop i) = some (40, WALK_REPL) := by
    rw [ht]
    exact matchWalk_sig t
  have htest : hasMatch matchWalk (insertMarker c) = true :=
    hasMatch_of_drop hmatch
  have hne : scanRepl matchWalk (insertMarker c) ≠ insertMarker c :=
    scanRepl_walk_ne htest
  obtain ⟨hres, hbuf⟩ := applyPatch_walk htest hne
  refine ⟨?_, ?_⟩
  · rw [patchDrizzleKit_head v c h2, hres]
  · rw [hbuf]
    have hcR : containsB WALK_REPL (scanRepl matchWalk (insertMarker c)) = true :=
      containsB_scanRepl rfl matchWalk_rep htest
    exact containsB_of_sub (by decide) hcR

/-- A fixture containing the literal signature plus the three critical
patterns. -/
def walkSample : Str :=
  "function walkForTsConfig(directory, x) \x7b\nsafeRegister = async () => \x7b\nconst required = require(`$\x7ba\x7d`);\nconst i0 = require(`$\x7bb\x7d`);\n".toList

/-- C9 witness at `walkSample`. -/
theorem walk_e2e_amended_witness :
    (patchDrizzleKit V0 walkSample).results.head? =
      some ⟨"walkForTsConfig".toList, true, none⟩ ∧
    containsB WALK_FRAG
      ((applyPatch (insertMarker walkSample) "walkForTsConfig".toList
        (mkG matchWalk)).1) = true :=
  walk_e2e_amended V0 walkSample (by decide) (by decide)

/-- An artifact containing the walkForTsConfig signature inside the brace
wildcard of the `_supportsColor` pattern: the later `_supportsColor` rule
rewrites the region holding the freshly inserted `return void 0;`. -/
def cex9 : Str :=
  "function _supportsColor(haveStream, \x7b function walkForTsConfig(directory, x) \x7b\n\x7d = \x7b\x7d) \x7b\nsafeRegister = async () => \x7b\nconst required = require(`$\x7ba\x7d`);\nconst i0 = require(`$\x7bb\x7d`);\n".toList

/-- The buffer the pipeline produces for `cex9`. -/
def cex9Out : Str := (runRules (insertMarker cex9) RULES).1

/-- C9 counterexample: `cex9` contains the literal signature and the run
commits successfully, yet the committed output does not contain
`return void 0;` — a later rule rewrote the patched region. -/
theorem walk_e2e_cex :
    containsB WALK_SIG cex9 = true ∧
    (patchDrizzleKit V0 cex9).outcome = RunOutcome.committed cex9Out ∧
    (patchDrizzleKit V0 cex9).exitCode = 0 ∧
    containsB "return void 0;".toList cex9Out = false := by
  refine ⟨by decide, by decide, by decide, by decide⟩

end DrizzlePatch
